import Mathlib

/-!
Verification of the net-value reconciliation pipeline
(caculate_net_value_v2 repository).

Shallow embedding of the core algorithms:
  * `undo_spot_event` / `undo_perp_event` — the per-event position inversion
    of `PositionBackwardCalculator` (calculate_positions_backward.py).
  * the backward reconstruction loop with snapshot validation and overwrite
    (`calculate_backward`, step 4 in the source).
  * `calculate_net_value` — the bucketed share/net-value recurrence of
    `NetValueCalculatorV2.calculate_net_value` (caculate_net_value_v2.py).
  * `generate_time_intervals` — the time-bucket grid generation.
  * `normalize` — `EventImpactRecorder.record_event_impact` and the ledger /
    trade / funding handlers (event_impact_recorder.py).

Python floats are modelled as rationals (ℚ); Python dicts of positions are
modelled as association lists with unique-key update and erase operations
(`dictSet` replaces every binding of the key; insertion order is not
modelled, since no verified property depends on iteration order).
-/

/-- The near-zero threshold `1e-10` used throughout the source
(`abs(x) < 1e-10` deletes an entry, `abs(x) > 1e-10` enables a division). -/
def tinyThreshold : ℚ := 1 / 10 ^ 10

/-- Python's `abs` on a rational, written so that it evaluates by cases on
the sign (definitionally equal to `|v|`, see `ratAbs_eq_abs`). -/
def ratAbs (v : ℚ) : ℚ := if v < 0 then -v else v

/-- Rounding behaviour of the undo steps: a freshly computed amount whose
magnitude is below `1e-10` is dropped (treated as zero). -/
def roundTiny (v : ℚ) : ℚ := if ratAbs v < tinyThreshold then 0 else v

/-- Spot positions: the Python dict `{'BTC': 10.99, 'USDC': 10000}`. -/
abbrev SpotPos := List (String × ℚ)

/-- `dict.get(coin, 0)`. -/
def dictGet : SpotPos → String → ℚ
  | [], _ => 0
  | (k', v) :: rest, k => if k' = k then v else dictGet rest k

/-- `del dict[coin]` (no-op when the key is absent). -/
def dictErase : SpotPos → String → SpotPos
  | [], _ => []
  | (k', v') :: rest, k =>
      if k' = k then dictErase rest k else (k', v') :: dictErase rest k

/-- `dict[coin] = v`. -/
def dictSet (m : SpotPos) (k : String) (v : ℚ) : SpotPos :=
  (k, v) :: dictErase m k

/-- One iteration of the loop in `undo_spot_event`
(calculate_positions_backward.py lines 331-340): subtract the recorded
change for one coin, deleting the entry when the result is below `1e-10`
in magnitude. -/
def applyChange (m : SpotPos) (coin : String) (change : ℚ) : SpotPos :=
  let next := dictGet m coin - change
  if ratAbs next < tinyThreshold then dictErase m coin else dictSet m coin next

/-- Step 2 of `undo_spot_event` (calculate_positions_backward.py lines
342-351): subtract `asset_change` from the USDC balance, but only when its
magnitude exceeds `1e-10`; delete the entry when the result is below
`1e-10`. -/
def undoSpotStep2 (m : SpotPos) (assetChange : ℚ) : SpotPos :=
  if tinyThreshold < ratAbs assetChange then
    if ratAbs (dictGet m "USDC" - assetChange) < tinyThreshold then
      dictErase m "USDC"
    else dictSet m "USDC" (dictGet m "USDC" - assetChange)
  else m

/-- `PositionBackwardCalculator.undo_spot_event`
(calculate_positions_backward.py lines 311-353): subtract every entry of
`spot_position_changes`, then subtract `spot_asset_change_ex_position` from
the USDC balance. -/
def undo_spot_event (current : SpotPos) (changes : List (String × ℚ))
    (assetChange : ℚ) : SpotPos :=
  undoSpotStep2 (changes.foldl (fun m p => applyChange m p.1 p.2) current)
    assetChange

/-- One perpetual position entry `{'coin': 'ETH', 'amount': -453.45, 'dir': 'short'}`. -/
structure PerpEntry where
  coin : String
  amount : ℚ
  dir : String
deriving DecidableEq, Repr

/-- One entry of `perp_position_changes`:
`{'amount': 5, 'price': 50000, 'dir': 'Open Long', 'side': 'B'}`. -/
structure PerpChange where
  amount : ℚ
  price : ℚ
  dir : String
  side : String
deriving DecidableEq, Repr

/-- The dict `positions_dict` built at the top of `undo_perp_event`
(`positions_dict[pos['coin']] = pos['amount']`; a later entry for the same
coin overwrites an earlier one). -/
def perpToDict (l : List PerpEntry) : SpotPos :=
  l.foldl (fun m p => dictSet m p.coin p.amount) []

/-- Amount held in a perpetual position list for one coin, with the
last-entry-wins dict semantics the source uses whenever it keys a perp
list by coin. -/
def perpGet (l : List PerpEntry) (c : String) : ℚ :=
  dictGet (perpToDict l) c

/-- One iteration of the loop in `undo_perp_event`
(calculate_positions_backward.py lines 383-410): side `'B'` is undone by
subtracting the traded amount, side `'A'` by adding it, any other side is
skipped with a warning; a result below `1e-10` in magnitude deletes the
entry. -/
def perpApplyChange (m : SpotPos) (coin : String) (info : PerpChange) : SpotPos :=
  if info.side = "B" then
    let next := dictGet m coin - info.amount
    if ratAbs next < tinyThreshold then dictErase m coin else dictSet m coin next
  else if info.side = "A" then
    let next := dictGet m coin + info.amount
    if ratAbs next < tinyThreshold then dictErase m coin else dictSet m coin next
  else m

/-- Rebuilding the perp list from `positions_dict`
(calculate_positions_backward.py lines 412-428): positive amounts become
`'long'`, negative become `'short'`, exact zeros are skipped. -/
def perpRebuild (m : SpotPos) : List PerpEntry :=
  m.filterMap (fun p =>
    if 0 < p.2 then some ⟨p.1, p.2, "long"⟩
    else if p.2 < 0 then some ⟨p.1, p.2, "short"⟩
    else none)

/-- `PositionBackwardCalculator.undo_perp_event`
(calculate_positions_backward.py lines 355-428). An empty
`position_changes` returns a copy of the input list unchanged. -/
def undo_perp_event (current : List PerpEntry)
    (changes : List (String × PerpChange)) : List PerpEntry :=
  if changes.isEmpty then current
  else perpRebuild (changes.foldl (fun m pc => perpApplyChange m pc.1 pc.2)
    (perpToDict current))

/-- `PositionBackwardCalculator._is_within_tolerance`
(calculate_positions_backward.py lines 579-607): absolute error at most
`0.01`, or — when the snapshot value is above `1e-10` in magnitude —
relative error at most 1%. -/
def is_within_tolerance (calcAmount snapAmount : ℚ) : Bool :=
  let diff := ratAbs (calcAmount - snapAmount)
  if diff ≤ 1 / 100 then true
  else if tinyThreshold < ratAbs snapAmount then
    decide (diff / ratAbs snapAmount ≤ 1 / 100)
  else false

/-- Spot half of `PositionBackwardCalculator._compare_positions`: every coin
appearing on either side must be within tolerance (the source collects the
failing coins; only emptiness of that list is used downstream). -/
def compare_spot (calcPos snap : SpotPos) : Bool :=
  ((calcPos.map Prod.fst ++ snap.map Prod.fst).dedup).all
    (fun c => is_within_tolerance (dictGet calcPos c) (dictGet snap c))

/-- Perp half of `PositionBackwardCalculator._compare_positions`: both lists
are keyed by coin (last entry wins) and compared amount-by-amount. -/
def compare_perp (calcPos snap : List PerpEntry) : Bool :=
  (((perpToDict calcPos).map Prod.fst ++ (perpToDict snap).map Prod.fst).dedup).all
    (fun c => is_within_tolerance (perpGet calcPos c) (perpGet snap c))

/-- One row of the backward-reconstruction timeline: the parsed
`spot_position_changes`, `spot_asset_change_ex_position`,
`perp_position_changes`, and the attached snapshot when
`is_snapshot_recorded` is true. -/
structure BackRow where
  spotChanges : List (String × ℚ)
  spotAssetChange : ℚ
  perpChanges : List (String × PerpChange)
  snapshot : Option (SpotPos × List PerpEntry)
deriving Repr

/-- One iteration of the backward loop
(calculate_positions_backward.py lines 791-867), returning
(state handed to the next (older) row,
 position recorded in the row's output columns,
 snapshot comparison flags when the row carries a snapshot).
The undone position is recorded, then compared against the snapshot, and
the working state is replaced by the snapshot whether or not the
comparison matched. -/
def backStepFull (spot : SpotPos) (perp : List PerpEntry) (row : BackRow) :
    (SpotPos × List PerpEntry) × (SpotPos × List PerpEntry) × Option (Bool × Bool) :=
  let us := undo_spot_event spot row.spotChanges row.spotAssetChange
  let up := undo_perp_event perp row.perpChanges
  match row.snapshot with
  | some s => ((s.1, s.2), (us, up), some (compare_spot us s.1, compare_perp up s.2))
  | none => ((us, up), (us, up), none)

/-- Working state after processing one row. -/
def backStep (spot : SpotPos) (perp : List PerpEntry) (row : BackRow) :
    SpotPos × List PerpEntry :=
  (backStepFull spot perp row).1

/-- Working states after each row of the backward loop (newest-to-oldest
order, as in the source). -/
def backStates (spot : SpotPos) (perp : List PerpEntry) :
    List BackRow → List (SpotPos × List PerpEntry)
  | [] => []
  | row :: rest =>
      let st := backStep spot perp row
      st :: backStates st.1 st.2 rest

/-- Keys of the dictionary. -/
def dictKeys (m : SpotPos) : List String := m.map Prod.fst

/-- First-match lookup in a change list (the parsed Python dict of changes
has unique keys, so first match equals the dict entry). -/
def chLookup : List (String × ℚ) → String → Option ℚ
  | [], _ => none
  | (k, v) :: rest, c => if k = c then some v else chLookup rest c

/-- First-match lookup in a perp change list. -/
def chLookupP : List (String × PerpChange) → String → Option PerpChange
  | [], _ => none
  | (k, v) :: rest, c => if k = c then some v else chLookupP rest c

/-- One bucket of `intervals_df` before the net-value pass: its start
timestamp and the already computed `total_assets`
(spot_account_value + perp_account_value). -/
structure NVBucket where
  timestamp : ℤ
  totalAssets : ℚ
deriving Repr, DecidableEq

/-- One event row of `positions_df` as used by the net-value pass: its
timestamp and the numerator of the parsed `share_change` formula
(`"X/current_net_value"`; `none` when the field is empty or carries no
slash). -/
structure NVEvent where
  timestamp : ℤ
  shareChange : Option ℚ
deriving Repr, DecidableEq

/-- One output row of the net-value pass. -/
structure NVRow where
  timestamp : ℤ
  totalAssets : ℚ
  totalShares : ℚ
  netValue : ℚ
deriving Repr, DecidableEq

def nvDefault : NVRow := ⟨0, 0, 0, 0⟩

/-- Resolution of one `share_change` formula
(caculate_net_value_v2.py lines 1450-1477): the numerator is divided by the
previous bucket's net value, but only when that net value's magnitude
exceeds `1e-10`; otherwise the event contributes no share change. -/
def resolveDelta (prevNV : ℚ) (e : NVEvent) : ℚ :=
  match e.shareChange with
  | none => 0
  | some v => if tinyThreshold < ratAbs prevNV then v / prevNV else 0

/-- Events strictly after the previous bucket start and at most the
current bucket start (the mask at caculate_net_value_v2.py line 1442). -/
def eventsIn (events : List NVEvent) (pts cts : ℤ) : List NVEvent :=
  events.filter (fun e => decide (pts < e.timestamp) && decide (e.timestamp ≤ cts))

/-- The per-bucket loop of `calculate_net_value`
(caculate_net_value_v2.py lines 1427-1504), carrying the previous bucket's
timestamp, total shares and net value. -/
def nvLoop (events : List NVEvent) : ℤ → ℚ → ℚ → List NVBucket → List NVRow
  | _, _, _, [] => []
  | pts, psh, pnv, b :: rest =>
      let tsc := ((eventsIn events pts b.timestamp).map (resolveDelta pnv)).sum
      let sh := psh + tsc
      let nv := if tinyThreshold < ratAbs sh then b.totalAssets / sh else 0
      ⟨b.timestamp, b.totalAssets, sh, nv⟩ :: nvLoop events b.timestamp sh nv rest

/-- The initialization scan of `calculate_net_value`
(caculate_net_value_v2.py lines 1387-1423): buckets before the first one
with `|total_assets| > 1e-10` keep the initialized zero shares and zero net
value; at the first such bucket total shares are set to the total assets
and the net value to 1; later buckets follow the loop. -/
def nvScan (events : List NVEvent) : List NVBucket → List NVRow
  | [] => []
  | b :: rest =>
      if tinyThreshold < ratAbs b.totalAssets then
        ⟨b.timestamp, b.totalAssets, b.totalAssets, 1⟩ ::
          nvLoop events b.timestamp b.totalAssets 1 rest
      else ⟨b.timestamp, b.totalAssets, 0, 0⟩ :: nvScan events rest

/-- `NetValueCalculatorV2.calculate_net_value` (caculate_net_value_v2.py
lines 1345-1539), restricted to the `total_shares` / `net_value` columns. -/
def calculate_net_value (buckets : List NVBucket) (events : List NVEvent) :
    List NVRow :=
  nvScan events buckets

/-- The recurrence the source applies between two consecutive buckets past
the initialization point. -/
def nvStepRel (events : List NVEvent) (p q : NVRow) : Prop :=
  q.totalShares = p.totalShares +
    ((eventsIn events p.timestamp q.timestamp).map (resolveDelta p.netValue)).sum ∧
  q.netValue =
    (if tinyThreshold < ratAbs q.totalShares then q.totalAssets / q.totalShares
     else 0)

/-- Invariant of every produced row: net value times shares reproduces the
assets whenever the shares pass the `1e-10` guard, and a non-zero net value
certifies both the guard and the quotient form. -/
def NVInv (r : NVRow) : Prop :=
  (tinyThreshold < ratAbs r.totalShares →
    r.netValue * r.totalShares = r.totalAssets) ∧
  (r.netValue ≠ 0 →
    tinyThreshold < ratAbs r.totalShares ∧
      r.netValue = r.totalAssets / r.totalShares)

/-- One row of `positions_df` as seen by the bucket generator: its (ms)
timestamp and the `is_snapshot_recorded` flag. -/
structure PosRow where
  timestamp : ℕ
  isSnapshotRecorded : Bool
deriving Repr, DecidableEq

/-- `NetValueCalculatorV2.generate_time_intervals`
(caculate_net_value_v2.py lines 148-218), as the code actually executes:
the snapshot-based end timestamp computed by the `if`/`else` block at lines
175-188 is printed and then unconditionally overwritten at line 189 by the
last row's timestamp, so the generated grid always ends at the bucket of
the LAST EVENT.  Returns the list of bucket start timestamps. -/
def generate_time_intervals (rows : List PosRow) (intervalMs : ℕ) : List ℕ :=
  match rows with
  | [] => []
  | r0 :: _ =>
      let startTimestamp := r0.timestamp
      let endTimestamp := ((rows.getLast?).map PosRow.timestamp).getD 0
      let startAligned := startTimestamp / intervalMs * intervalMs
      let endAligned := (endTimestamp / intervalMs + 1) * intervalMs
      List.range' startAligned ((endAligned - startAligned) / intervalMs) intervalMs

/-- The bucket grid as the spec (and the function's own docstring,
caculate_net_value_v2.py lines 152-154) describes it: the end timestamp is
the timestamp of the last row with `is_snapshot_recorded=True`, falling
back to the last row when no such row exists.  Written from the spec
sentence, to be compared with the code's `generate_time_intervals`. -/
def generate_time_intervals_spec (rows : List PosRow) (intervalMs : ℕ) : List ℕ :=
  match rows with
  | [] => []
  | r0 :: _ =>
      let startTimestamp := r0.timestamp
      let snapRows := rows.filter (fun r => r.isSnapshotRecorded)
      let endTimestamp := ((snapRows.getLast?).map PosRow.timestamp).getD
        (((rows.getLast?).map PosRow.timestamp).getD 0)
      let startAligned := startTimestamp / intervalMs * intervalMs
      let endAligned := (endTimestamp / intervalMs + 1) * intervalMs
      List.range' startAligned ((endAligned - startAligned) / intervalMs) intervalMs

/-! ### Spec-modelled forward application (for the undo/redo property) -/

/-- Modelled from the spec: forward application of a spot Impact.  The
repository has no forward `apply` — positions were advanced by the
exchange — so this inverts the spec's undo rules (§4.3): add every
position delta, and add the asset change to the settlement currency. -/
def apply_spot_event (pos : SpotPos) (changes : List (String × ℚ))
    (assetChange : ℚ) : SpotPos :=
  let step1 := changes.foldl (fun m p => dictSet m p.1 (dictGet m p.1 + p.2)) pos
  dictSet step1 "USDC" (dictGet step1 "USDC" + assetChange)

/-- Modelled from the spec: forward application of a perp Impact.  Side
`'B'` (buy) adds the traded amount, side `'A'` (sell) subtracts it;
direction tags follow the sign of the resulting amount. -/
def apply_perp_event (pos : List PerpEntry)
    (changes : List (String × PerpChange)) : List PerpEntry :=
  if changes.isEmpty then pos
  else perpRebuild (changes.foldl (fun m pc =>
    if pc.2.side = "B" then dictSet m pc.1 (dictGet m pc.1 + pc.2.amount)
    else if pc.2.side = "A" then dictSet m pc.1 (dictGet m pc.1 - pc.2.amount)
    else m) (perpToDict pos))

/-- One raw trade record (the fields the recorder reads). -/
structure TradeData where
  coin : String := ""
  side : String := ""
  sz : ℚ := 0
  px : ℚ := 0
  startPosition : ℚ := 0
  closedPnl : ℚ := 0
  fee : ℚ := 0
  feeToken : String := ""
  dir : String := ""
  typ : String := "perp"
deriving Repr, DecidableEq

/-- One raw funding record (the fields the recorder reads). -/
structure FundingData where
  coin : String := ""
  usdc : ℚ := 0
deriving Repr, DecidableEq

/-- The `delta` payload of a ledger record: union of the fields the
handlers read.  `priceLookup` models the result of the external spot-price
query used by `spotGenesis` and non-USDC `rewardsClaim` (spec §6: price
source); `none` means the lookup failed or was unavailable. -/
structure LedgerDelta where
  usdc : ℚ := 0
  fee : ℚ := 0
  feeToken : String := ""
  token : String := ""
  amount : ℚ := 0
  usdcValue : ℚ := 0
  user : String := ""
  destination : String := ""
  sourceDex : String := ""
  destinationDex : String := ""
  toPerp : Bool := false
  netWithdrawnUsd : ℚ := 0
  priceLookup : Option ℚ := none
deriving Repr, DecidableEq

/-- The normalized Impact record (the fields the downstream pipeline
consumes; `before_spot_trade` / `before_perp_trade` and the raw-data echo
are recorded by the source but never read by the verified paths).
`shareChange` is the parsed numerator of the `"X/current_net_value"`
formula string; `none` models the literal `0` (no formula). -/
structure Impact where
  eventType : String := ""
  eventSubtype : String := ""
  spotPositionChanges : List (String × ℚ) := []
  perpPositionChanges : List (String × PerpChange) := []
  spotAssetChangeExPosition : ℚ := 0
  perpAssetChangeExPosition : ℚ := 0
  shareChange : Option ℚ := none
deriving Repr, DecidableEq

/-- One event of the timeline built by `build_timeline`. -/
inductive Event where
  | trade (subtype : String) (data : TradeData)
  | funding (data : FundingData)
  | ledger (subtype : String) (delta : LedgerDelta)
  | other
deriving Repr, DecidableEq

/-- `EventImpactRecorder.record_perp_trade_impact`
(event_impact_recorder.py lines 245-360): the fee is charged to
`perp_asset_change_ex_position` only when `feeToken == 'USDC'`, otherwise
it is dropped with a printed warning; a side other than `'B'`/`'A'` raises
`ValueError`. -/
def record_perp_trade_impact (t : TradeData) : Except String Impact :=
  let pacep : ℚ := if t.feeToken = "USDC" then -t.fee else 0
  if t.side = "B" ∨ t.side = "A" then
    .ok { eventType := "trade", eventSubtype := t.typ,
          perpPositionChanges := [(t.coin, ⟨t.sz, t.px, t.dir, t.side⟩)],
          perpAssetChangeExPosition := pacep }
  else .error "invalid perp trade side"

/-- `EventImpactRecorder.record_spot_trade_impact`
(event_impact_recorder.py lines 362-460). -/
def record_spot_trade_impact (t : TradeData) : Except String Impact :=
  if t.side = "B" ∨ t.side = "A" then
    let coinChange : ℚ := if t.side = "B" then t.sz else -t.sz
    let usdcChange : ℚ := if t.side = "B" then -(t.sz * t.px) else t.sz * t.px
    if t.feeToken = "USDC" then
      .ok { eventType := "trade", eventSubtype := "spot",
            spotPositionChanges :=
              dictSet (dictSet [] t.coin coinChange) "USDC" usdcChange,
            spotAssetChangeExPosition := -t.fee }
    else if t.feeToken = t.coin then
      .ok { eventType := "trade", eventSubtype := "spot",
            spotPositionChanges :=
              dictSet (dictSet [] t.coin (coinChange - t.fee)) "USDC" usdcChange }
    else
      .ok { eventType := "trade", eventSubtype := "spot",
            spotPositionChanges :=
              dictSet (dictSet (dictSet [] t.coin coinChange) "USDC" usdcChange)
                t.feeToken (-t.fee) }
  else .error "invalid spot trade side"

/-- `EventImpactRecorder.record_funding_impact`
(event_impact_recorder.py lines 464-507): a pure perp asset delta. -/
def record_funding_impact (f : FundingData) : Impact :=
  { eventType := "funding", eventSubtype := "funding",
    perpAssetChangeExPosition := f.usdc }

def record_deposit_impact (d : LedgerDelta) : Impact :=
  { eventType := "ledger", eventSubtype := "deposit",
    perpAssetChangeExPosition := d.usdc, shareChange := some d.usdc }

def record_withdraw_impact (d : LedgerDelta) : Impact :=
  { eventType := "ledger", eventSubtype := "withdraw",
    perpAssetChangeExPosition := -(d.usdc + d.fee),
    shareChange := some (-d.usdc) }

def record_account_class_transfer_impact (d : LedgerDelta) : Impact :=
  if d.toPerp then
    { eventType := "ledger", eventSubtype := "accountClassTransfer",
      spotPositionChanges := [("USDC", -d.usdc)],
      perpAssetChangeExPosition := d.usdc }
  else
    { eventType := "ledger", eventSubtype := "accountClassTransfer",
      spotPositionChanges := [("USDC", d.usdc)],
      perpAssetChangeExPosition := -d.usdc }

def record_spot_transfer_impact (addr : String) (d : LedgerDelta) : Impact :=
  if addr ≠ "" ∧ d.user = addr then
    { eventType := "ledger", eventSubtype := "spotTransfer",
      spotPositionChanges := [(d.token, -d.amount)],
      spotAssetChangeExPosition := -d.fee,
      shareChange := some (-(d.usdcValue + d.fee)) }
  else if addr ≠ "" ∧ d.destination = addr then
    { eventType := "ledger", eventSubtype := "spotTransfer",
      spotPositionChanges := [(d.token, d.amount)],
      shareChange := some d.usdcValue }
  else { eventType := "ledger", eventSubtype := "spotTransfer" }

def record_internal_transfer_impact (addr : String) (d : LedgerDelta) : Impact :=
  if addr ≠ "" ∧ d.user = addr then
    { eventType := "ledger", eventSubtype := "internalTransfer",
      spotPositionChanges := [("USDC", -d.usdc)],
      spotAssetChangeExPosition := -d.fee,
      shareChange := some (-(d.usdc + d.fee)) }
  else if addr ≠ "" ∧ d.destination = addr then
    { eventType := "ledger", eventSubtype := "internalTransfer",
      spotPositionChanges := [("USDC", d.usdc)],
      shareChange := some d.usdc }
  else { eventType := "ledger", eventSubtype := "internalTransfer" }

def record_subaccount_transfer_impact (addr : String) (d : LedgerDelta) : Impact :=
  if addr ≠ "" ∧ d.user = addr then
    { eventType := "ledger", eventSubtype := "subAccountTransfer",
      spotPositionChanges := [("USDC", -d.usdc)],
      shareChange := some (-d.usdc) }
  else if addr ≠ "" ∧ d.destination = addr then
    { eventType := "ledger", eventSubtype := "subAccountTransfer",
      spotPositionChanges := [("USDC", d.usdc)],
      shareChange := some d.usdc }
  else { eventType := "ledger", eventSubtype := "subAccountTransfer" }

def record_vault_create_impact (d : LedgerDelta) : Impact :=
  { eventType := "ledger", eventSubtype := "vaultCreate",
    spotPositionChanges := [("USDC", -(d.usdc + d.fee))],
    shareChange := some (-(d.usdc + d.fee)) }

def record_vault_deposit_impact (d : LedgerDelta) : Impact :=
  { eventType := "ledger", eventSubtype := "vaultDeposit",
    perpAssetChangeExPosition := -d.usdc, shareChange := some (-d.usdc) }

def record_vault_withdraw_impact (d : LedgerDelta) : Impact :=
  { eventType := "ledger", eventSubtype := "vaultWithdraw",
    perpAssetChangeExPosition := d.netWithdrawnUsd,
    shareChange := some d.netWithdrawnUsd }

def record_vault_distribution_impact (d : LedgerDelta) : Impact :=
  { eventType := "ledger", eventSubtype := "vaultDistribution",
    perpAssetChangeExPosition := d.usdc, shareChange := some d.usdc }

def record_spot_genesis_impact (d : LedgerDelta) : Impact :=
  { eventType := "ledger", eventSubtype := "spotGenesis",
    spotPositionChanges := [(d.token, d.amount)],
    shareChange := d.priceLookup.map (fun p => d.amount * p) }

def record_staking_transfer_impact (_ : LedgerDelta) : Impact :=
  { eventType := "ledger", eventSubtype := "cStakingTransfer" }

def record_liquidation_impact (_ : LedgerDelta) : Impact :=
  { eventType := "ledger", eventSubtype := "liquidation" }

def record_rewards_claim_impact (d : LedgerDelta) : Impact :=
  if d.token = "" ∨ d.token = "USDC" then
    { eventType := "ledger", eventSubtype := "rewardsClaim",
      spotPositionChanges := [("USDC", d.amount)],
      shareChange := some d.amount }
  else
    { eventType := "ledger", eventSubtype := "rewardsClaim",
      spotPositionChanges := [(d.token, d.amount)],
      shareChange := d.priceLookup.map (fun p => d.amount * p) }

def record_activate_dex_abstraction_impact (_ : LedgerDelta) : Impact :=
  { eventType := "ledger", eventSubtype := "activateDexAbstraction" }

def record_account_activation_gas_impact (d : LedgerDelta) : Impact :=
  { eventType := "ledger", eventSubtype := "accountActivationGas",
    spotPositionChanges := [(d.token, -d.amount)] }

/-- Direction case 1 of `record_send_impact`: same-account perp → spot. -/
def sendCase1 (a : String) (d : LedgerDelta) : Bool :=
  decide (d.user = a) && decide (d.destination = a) &&
    decide (d.sourceDex = "") && decide (d.destinationDex = "spot")

/-- Direction case 2: same-account spot → perp. -/
def sendCase2 (a : String) (d : LedgerDelta) : Bool :=
  decide (d.user = a) && decide (d.destination = a) &&
    decide (d.sourceDex = "spot") && decide (d.destinationDex = "")

/-- Direction case 3: perp out to an external address or external DEX. -/
def sendCase3 (a : String) (d : LedgerDelta) : Bool :=
  decide (d.user = a) && decide (d.sourceDex = "") &&
    (!decide (d.destination = a) ||
      (decide (d.destination = a) && !decide (d.destinationDex = "") &&
        !decide (d.destinationDex = "spot")))

/-- Direction case 4: spot out to an external address or external DEX. -/
def sendCase4 (a : String) (d : LedgerDelta) : Bool :=
  decide (d.user = a) && decide (d.sourceDex = "spot") &&
    (!decide (d.destination = a) ||
      (decide (d.destination = a) && !decide (d.destinationDex = "") &&
        !decide (d.destinationDex = "spot")))

/-- Direction case 5: external address or external DEX in, to perp. -/
def sendCase5 (a : String) (d : LedgerDelta) : Bool :=
  decide (d.destination = a) && decide (d.destinationDex = "") &&
    (!decide (d.user = a) ||
      (decide (d.user = a) && !decide (d.sourceDex = "") &&
        !decide (d.sourceDex = "spot")))

/-- Direction case 6: external address or external DEX in, to spot. -/
def sendCase6 (a : String) (d : LedgerDelta) : Bool :=
  decide (d.destination = a) && decide (d.destinationDex = "spot") &&
    (!decide (d.user = a) ||
      (decide (d.user = a) && !decide (d.sourceDex = "") &&
        !decide (d.sourceDex = "spot")))

/-- `EventImpactRecorder.record_send_impact`
(event_impact_recorder.py lines 1160-1318): six directional cases tried in
order; cases 3 and 5 additionally raise when the token is not USDC; a
combination matching no case raises. -/
def record_send_impact (addr : String) (d : LedgerDelta) : Except String Impact :=
  if addr = "" then .ok { eventType := "ledger", eventSubtype := "send" }
  else if sendCase1 addr d then
    .ok { eventType := "ledger", eventSubtype := "send",
          spotPositionChanges := [("USDC", d.amount)],
          perpAssetChangeExPosition := -(d.fee + d.amount) }
  else if sendCase2 addr d then
    .ok { eventType := "ledger", eventSubtype := "send",
          spotPositionChanges := [("USDC", -d.amount)],
          perpAssetChangeExPosition := d.amount,
          spotAssetChangeExPosition := -d.fee }
  else if sendCase3 addr d then
    if d.token ≠ "USDC" then .error "send case 3 supports only USDC"
    else
      .ok { eventType := "ledger", eventSubtype := "send",
            perpAssetChangeExPosition := -(d.amount + d.fee),
            shareChange := some (-(d.usdcValue + d.fee)) }
  else if sendCase4 addr d then
    .ok { eventType := "ledger", eventSubtype := "send",
          spotPositionChanges := [(d.token, -d.amount)],
          spotAssetChangeExPosition := -d.fee,
          shareChange := some (-(d.usdcValue + d.fee)) }
  else if sendCase5 addr d then
    if d.token ≠ "USDC" then .error "send case 5 supports only USDC"
    else
      .ok { eventType := "ledger", eventSubtype := "send",
            perpAssetChangeExPosition := d.amount,
            shareChange := some d.usdcValue }
  else if sendCase6 addr d then
    .ok { eventType := "ledger", eventSubtype := "send",
          spotPositionChanges := [(d.token, d.amount)],
          shareChange := some d.usdcValue }
  else .error "send event matches no known case"

/-- The 17 recognized ledger subtypes (keys of `method_map`,
event_impact_recorder.py lines 519-537). -/
def ledgerSubtypes : List String :=
  ["deposit", "withdraw", "accountClassTransfer", "spotTransfer",
   "internalTransfer", "subAccountTransfer", "vaultCreate", "vaultDeposit",
   "vaultWithdraw", "vaultDistribution", "spotGenesis", "send",
   "cStakingTransfer", "liquidation", "rewardsClaim",
   "activateDexAbstraction", "accountActivationGas"]

/-- `EventImpactRecorder.record_ledger_impact`
(event_impact_recorder.py lines 511-553): dispatch on the ledger subtype,
raising on an unrecognized one. -/
def record_ledger_impact (addr : String) (st : String) (d : LedgerDelta) :
    Except String Impact :=
  if st = "deposit" then .ok (record_deposit_impact d)
  else if st = "withdraw" then .ok (record_withdraw_impact d)
  else if st = "accountClassTransfer" then
    .ok (record_account_class_transfer_impact d)
  else if st = "spotTransfer" then .ok (record_spot_transfer_impact addr d)
  else if st = "internalTransfer" then
    .ok (record_internal_transfer_impact addr d)
  else if st = "subAccountTransfer" then
    .ok (record_subaccount_transfer_impact addr d)
  else if st = "vaultCreate" then .ok (record_vault_create_impact d)
  else if st = "vaultDeposit" then .ok (record_vault_deposit_impact d)
  else if st = "vaultWithdraw" then .ok (record_vault_withdraw_impact d)
  else if st = "vaultDistribution" then .ok (record_vault_distribution_impact d)
  else if st = "spotGenesis" then .ok (record_spot_genesis_impact d)
  else if st = "send" then record_send_impact addr d
  else if st = "cStakingTransfer" then .ok (record_staking_transfer_impact d)
  else if st = "liquidation" then .ok (record_liquidation_impact d)
  else if st = "rewardsClaim" then .ok (record_rewards_claim_impact d)
  else if st = "activateDexAbstraction" then
    .ok (record_activate_dex_abstraction_impact d)
  else if st = "accountActivationGas" then
    .ok (record_account_activation_gas_impact d)
  else .error "unknown ledger type"

/-- `EventImpactRecorder.record_event_impact`
(event_impact_recorder.py lines 182-216): dispatch on event type; a trade
subtype other than perp/perps/spot and a non trade/funding/ledger event
both yield an empty impact without raising. -/
def record_event_impact (addr : String) : Event → Except String Impact
  | .trade st t =>
      if st = "perp" ∨ st = "perps" then record_perp_trade_impact t
      else if st = "spot" then record_spot_trade_impact t
      else .ok { eventType := "trade", eventSubtype := st }
  | .funding f => .ok (record_funding_impact f)
  | .ledger st d => record_ledger_impact addr st d
  | .other => .ok {}

/-- Whether normalization of an event raises. -/
def isError (r : Except String Impact) : Bool :=
  match r with
  | .error _ => true
  | .ok _ => false

/-- Any of the six send direction cases matches. -/
def sendAnyCase (a : String) (d : LedgerDelta) : Bool :=
  sendCase1 a d || sendCase2 a d || sendCase3 a d || sendCase4 a d ||
    sendCase5 a d || sendCase6 a d

/-- The elif chain reaches direction case 3. -/
def sendReach3 (a : String) (d : LedgerDelta) : Bool :=
  !sendCase1 a d && !sendCase2 a d && sendCase3 a d

/-- The elif chain reaches direction case 5. -/
def sendReach5 (a : String) (d : LedgerDelta) : Bool :=
  !sendCase1 a d && !sendCase2 a d && !sendCase3 a d && !sendCase4 a d &&
    sendCase5 a d

/-- The fatal conditions exactly as the claim lists them: unrecognized
ledger subtype; a send event matching none of the six direction cases; a
perp/perps/spot trade with a side other than `'B'`/`'A'`. -/
def c7ClaimedFatal (addr : String) : Event → Bool
  | .trade st t =>
      (decide (st = "perp") || decide (st = "perps") || decide (st = "spot")) &&
        !(decide (t.side = "B") || decide (t.side = "A"))
  | .ledger st d =>
      !decide (st ∈ ledgerSubtypes) ||
        (decide (st = "send") && !sendAnyCase addr d)
  | .funding _ => false
  | .other => false

/-- The fatal conditions as the code implements them: additionally, a send
event that reaches direction case 3 or 5 with a non-USDC token raises. -/
def c7AmendedFatal (addr : String) : Event → Bool
  | .trade st t =>
      (decide (st = "perp") || decide (st = "perps") || decide (st = "spot")) &&
        !(decide (t.side = "B") || decide (t.side = "A"))
  | .ledger st d =>
      !decide (st ∈ ledgerSubtypes) ||
        (decide (st = "send") &&
          (!sendAnyCase addr d ||
            (sendReach3 addr d && !decide (d.token = "USDC")) ||
            (sendReach5 addr d && !decide (d.token = "USDC"))))
  | .funding _ => false
  | .other => false

theorem ratAbs_eq_abs (v : ℚ) : ratAbs v = |v| := by
  rcases lt_or_le v 0 with h | h
  · rw [ratAbs, if_pos h, abs_of_neg h]
  · rw [ratAbs, if_neg (not_lt.mpr h), abs_of_nonneg h]

theorem dictGet_erase_self (m : SpotPos) (k : String) :
    dictGet (dictErase m k) k = 0 := by
  induction m with
  | nil => rfl
  | cons p rest ih =>
      obtain ⟨k', v'⟩ := p
      by_cases h : k' = k
      · simpa [dictErase, h] using ih
      · simpa [dictErase, dictGet, h] using ih

theorem dictGet_erase_ne (m : SpotPos) (k k' : String) (h : k' ≠ k) :
    dictGet (dictErase m k) k' = dictGet m k' := by
  induction m with
  | nil => rfl
  | cons p rest ih =>
      obtain ⟨k₀, v₀⟩ := p
      by_cases h₀ : k₀ = k
      · subst h₀
        simp [dictErase, dictGet, Ne.symm h, ih]
      · simp [dictErase, dictGet, h₀, ih]

theorem dictGet_set_self (m : SpotPos) (k : String) (v : ℚ) :
    dictGet (dictSet m k v) k = v := by
  simp [dictSet, dictGet]

theorem dictGet_set_ne (m : SpotPos) (k k' : String) (v : ℚ) (h : k' ≠ k) :
    dictGet (dictSet m k v) k' = dictGet m k' := by
  simp [dictSet, dictGet, Ne.symm h, dictGet_erase_ne m k k' h]

theorem mem_dictErase (m : SpotPos) (k : String) (p : String × ℚ) :
    p ∈ dictErase m k ↔ p ∈ m ∧ p.1 ≠ k := by
  induction m with
  | nil => simp [dictErase]
  | cons q rest ih =>
      obtain ⟨k₀, v₀⟩ := q
      by_cases h₀ : k₀ = k
      · subst h₀
        rw [dictErase, if_pos rfl, ih]
        constructor
        · rintro ⟨hm, hne⟩
          exact ⟨List.mem_cons_of_mem _ hm, hne⟩
        · rintro ⟨hm, hne⟩
          rcases List.mem_cons.mp hm with rfl | hm'
          · exact absurd rfl hne
          · exact ⟨hm', hne⟩
      · rw [dictErase, if_neg h₀]
        constructor
        · intro hm
          rcases List.mem_cons.mp hm with rfl | hm'
          · exact ⟨List.mem_cons_self _ _, h₀⟩
          · obtain ⟨hr, hne⟩ := ih.mp hm'
            exact ⟨List.mem_cons_of_mem _ hr, hne⟩
        · rintro ⟨hm, hne⟩
          rcases List.mem_cons.mp hm with rfl | hm'
          · exact List.mem_cons_self _ _
          · exact List.mem_cons_of_mem _ (ih.mpr ⟨hm', hne⟩)

theorem mem_dictSet (m : SpotPos) (k : String) (v : ℚ) (p : String × ℚ) :
    p ∈ dictSet m k v ↔ p = (k, v) ∨ (p ∈ m ∧ p.1 ≠ k) := by
  simp [dictSet, mem_dictErase]

theorem dictKeys_erase_sub (m : SpotPos) (k c : String)
    (h : c ∈ dictKeys (dictErase m k)) : c ∈ dictKeys m := by
  rcases List.mem_map.mp h with ⟨p, hp, rfl⟩
  exact List.mem_map.mpr ⟨p, ((mem_dictErase m k p).mp hp).1, rfl⟩

theorem dictKeys_nodup_erase (m : SpotPos) (k : String)
    (h : (dictKeys m).Nodup) : (dictKeys (dictErase m k)).Nodup := by
  induction m with
  | nil => simp [dictErase, dictKeys]
  | cons p rest ih =>
      obtain ⟨k₀, v₀⟩ := p
      simp only [dictKeys, List.map_cons, List.nodup_cons] at h
      by_cases h₀ : k₀ = k
      · simpa [dictErase, h₀] using ih h.2
      · simp only [dictErase, if_neg h₀, dictKeys, List.map_cons, List.nodup_cons]
        refine ⟨fun hc => h.1 (dictKeys_erase_sub rest k k₀ hc), ih h.2⟩

theorem dictKeys_nodup_set (m : SpotPos) (k : String) (v : ℚ)
    (h : (dictKeys m).Nodup) : (dictKeys (dictSet m k v)).Nodup := by
  simp only [dictSet, dictKeys, List.map_cons, List.nodup_cons]
  constructor
  · intro hc
    rcases List.mem_map.mp hc with ⟨p, hp, hk⟩
    exact ((mem_dictErase m k p).mp hp).2 hk
  · exact dictKeys_nodup_erase m k h

theorem dictGet_eq_of_mem (m : SpotPos) (p : String × ℚ)
    (hn : (dictKeys m).Nodup) (hp : p ∈ m) : dictGet m p.1 = p.2 := by
  induction m with
  | nil => cases hp
  | cons q rest ih =>
      obtain ⟨k₀, v₀⟩ := q
      simp only [dictKeys, List.map_cons, List.nodup_cons] at hn
      rcases List.mem_cons.mp hp with rfl | hp'
      · simp [dictGet]
      · have hne : k₀ ≠ p.1 := by
          intro h
          exact hn.1 (h ▸ List.mem_map.mpr ⟨p, hp', rfl⟩)
        simp [dictGet, hne, ih hn.2 hp']

/-! ### Pointwise characterization of the undo steps -/

theorem chLookup_eq_none (l : List (String × ℚ)) (c : String)
    (h : c ∉ l.map Prod.fst) : chLookup l c = none := by
  induction l with
  | nil => rfl
  | cons p rest ih =>
      obtain ⟨k, v⟩ := p
      simp only [List.map_cons, List.mem_cons] at h
      push_neg at h
      rw [chLookup, if_neg (fun hk => h.1 hk.symm)]
      exact ih h.2

theorem chLookupP_eq_none (l : List (String × PerpChange)) (c : String)
    (h : c ∉ l.map Prod.fst) : chLookupP l c = none := by
  induction l with
  | nil => rfl
  | cons p rest ih =>
      obtain ⟨k, v⟩ := p
      simp only [List.map_cons, List.mem_cons] at h
      push_neg at h
      rw [chLookupP, if_neg (fun hk => h.1 hk.symm)]
      exact ih h.2

theorem applyChange_get_self (m : SpotPos) (c : String) (δ : ℚ) :
    dictGet (applyChange m c δ) c = roundTiny (dictGet m c - δ) := by
  rw [applyChange, roundTiny]
  by_cases h : ratAbs (dictGet m c - δ) < tinyThreshold
  · rw [if_pos h, if_pos h, dictGet_erase_self]
  · rw [if_neg h, if_neg h, dictGet_set_self]

theorem applyChange_get_ne (m : SpotPos) (c k : String) (δ : ℚ) (h : k ≠ c) :
    dictGet (applyChange m c δ) k = dictGet m k := by
  rw [applyChange]
  by_cases hc : ratAbs (dictGet m c - δ) < tinyThreshold
  · rw [if_pos hc, dictGet_erase_ne m c k h]
  · rw [if_neg hc, dictGet_set_ne m c k _ h]

theorem foldl_applyChange_get (ch : List (String × ℚ)) (pos : SpotPos)
    (c : String) (hch : (ch.map Prod.fst).Nodup) :
    dictGet (ch.foldl (fun m p => applyChange m p.1 p.2) pos) c =
      match chLookup ch c with
      | some δ => roundTiny (dictGet pos c - δ)
      | none => dictGet pos c := by
  induction ch generalizing pos with
  | nil => rfl
  | cons p rest ih =>
      obtain ⟨k, δ⟩ := p
      simp only [List.map_cons, List.nodup_cons] at hch
      rw [List.foldl_cons]
      by_cases hkc : k = c
      · subst hkc
        rw [chLookup, if_pos rfl, ih _ hch.2,
          chLookup_eq_none rest k hch.1, applyChange_get_self]
      · rw [chLookup, if_neg hkc, ih _ hch.2]
        cases hrest : chLookup rest c with
        | none => rw [applyChange_get_ne pos k c δ (fun h => hkc h.symm)]
        | some δ₀ => rw [applyChange_get_ne pos k c δ (fun h => hkc h.symm)]

theorem undoSpotStep2_get (m : SpotPos) (ac : ℚ) (c : String) :
    dictGet (undoSpotStep2 m ac) c =
      if c = "USDC" ∧ tinyThreshold < ratAbs ac then
        roundTiny (dictGet m "USDC" - ac)
      else dictGet m c := by
  rw [undoSpotStep2]
  by_cases hac : tinyThreshold < ratAbs ac
  · rw [if_pos hac]
    by_cases hc : c = "USDC"
    · subst hc
      rw [if_pos (And.intro rfl hac), roundTiny]
      by_cases h : ratAbs (dictGet m "USDC" - ac) < tinyThreshold
      · rw [if_pos h, if_pos h, dictGet_erase_self]
      · rw [if_neg h, if_neg h, dictGet_set_self]
    · by_cases h : ratAbs (dictGet m "USDC" - ac) < tinyThreshold
      · rw [if_pos h, dictGet_erase_ne _ _ _ hc, if_neg (fun hand => hc hand.1)]
      · rw [if_neg h, dictGet_set_ne _ _ _ _ hc, if_neg (fun hand => hc hand.1)]
  · rw [if_neg hac, if_neg (fun hand => hac hand.2)]

theorem undo_spot_get (pos : SpotPos) (ch : List (String × ℚ)) (ac : ℚ)
    (c : String) (hch : (ch.map Prod.fst).Nodup) :
    dictGet (undo_spot_event pos ch ac) c =
      (if c = "USDC" ∧ tinyThreshold < ratAbs ac then
        roundTiny ((match chLookup ch "USDC" with
          | some δ => roundTiny (dictGet pos "USDC" - δ)
          | none => dictGet pos "USDC") - ac)
      else
        match chLookup ch c with
        | some δ => roundTiny (dictGet pos c - δ)
        | none => dictGet pos c) := by
  rw [undo_spot_event, undoSpotStep2_get,
    foldl_applyChange_get ch pos "USDC" hch, foldl_applyChange_get ch pos c hch]

theorem perpApplyChange_get_self (m : SpotPos) (c : String) (info : PerpChange) :
    dictGet (perpApplyChange m c info) c =
      if info.side = "B" then roundTiny (dictGet m c - info.amount)
      else if info.side = "A" then roundTiny (dictGet m c + info.amount)
      else dictGet m c := by
  rw [perpApplyChange]
  by_cases hb : info.side = "B"
  · rw [if_pos hb, if_pos hb, roundTiny]
    by_cases h : ratAbs (dictGet m c - info.amount) < tinyThreshold
    · rw [if_pos h, if_pos h, dictGet_erase_self]
    · rw [if_neg h, if_neg h, dictGet_set_self]
  · rw [if_neg hb, if_neg hb]
    by_cases ha : info.side = "A"
    · rw [if_pos ha, if_pos ha, roundTiny]
      by_cases h : ratAbs (dictGet m c + info.amount) < tinyThreshold
      · rw [if_pos h, if_pos h, dictGet_erase_self]
      · rw [if_neg h, if_neg h, dictGet_set_self]
    · rw [if_neg ha, if_neg ha]

theorem perpApplyChange_get_ne (m : SpotPos) (c k : String) (info : PerpChange)
    (h : k ≠ c) : dictGet (perpApplyChange m c info) k = dictGet m k := by
  rw [perpApplyChange]
  by_cases hb : info.side = "B"
  · rw [if_pos hb]
    by_cases hh : ratAbs (dictGet m c - info.amount) < tinyThreshold
    · rw [if_pos hh, dictGet_erase_ne _ _ _ h]
    · rw [if_neg hh, dictGet_set_ne _ _ _ _ h]
  · rw [if_neg hb]
    by_cases ha : info.side = "A"
    · rw [if_pos ha]
      by_cases hh : ratAbs (dictGet m c + info.amount) < tinyThreshold
      · rw [if_pos hh, dictGet_erase_ne _ _ _ h]
      · rw [if_neg hh, dictGet_set_ne _ _ _ _ h]
    · rw [if_neg ha]

theorem foldl_perpApplyChange_get (ch : List (String × PerpChange))
    (m : SpotPos) (c : String) (hch : (ch.map Prod.fst).Nodup) :
    dictGet (ch.foldl (fun m pc => perpApplyChange m pc.1 pc.2) m) c =
      match chLookupP ch c with
      | some info =>
          if info.side = "B" then roundTiny (dictGet m c - info.amount)
          else if info.side = "A" then roundTiny (dictGet m c + info.amount)
          else dictGet m c
      | none => dictGet m c := by
  induction ch generalizing m with
  | nil => rfl
  | cons p rest ih =>
      obtain ⟨k, info⟩ := p
      simp only [List.map_cons, List.nodup_cons] at hch
      rw [List.foldl_cons]
      by_cases hkc : k = c
      · subst hkc
        rw [chLookupP, if_pos rfl, ih _ hch.2,
          chLookupP_eq_none rest k hch.1, perpApplyChange_get_self]
      · rw [chLookupP, if_neg hkc, ih _ hch.2]
        cases hrest : chLookupP rest c with
        | none => rw [perpApplyChange_get_ne m k c info (fun h => hkc h.symm)]
        | some info₀ => rw [perpApplyChange_get_ne m k c info (fun h => hkc h.symm)]

/-- Accumulator congruence for the dict-building fold of `perpToDict`. -/
theorem foldl_perpSet_congr (l : List PerpEntry) (acc₁ acc₂ : SpotPos)
    (c : String) (h : dictGet acc₁ c = dictGet acc₂ c) :
    dictGet (l.foldl (fun m p => dictSet m p.coin p.amount) acc₁) c =
      dictGet (l.foldl (fun m p => dictSet m p.coin p.amount) acc₂) c := by
  induction l generalizing acc₁ acc₂ with
  | nil => exact h
  | cons p rest ih =>
      rw [List.foldl_cons, List.foldl_cons]
      apply ih
      by_cases hc : p.coin = c
      · subst hc
        rw [dictGet_set_self, dictGet_set_self]
      · rw [dictGet_set_ne _ _ _ _ (fun hh => hc hh.symm),
          dictGet_set_ne _ _ _ _ (fun hh => hc hh.symm), h]

theorem foldl_perpSet_not_mem (l : List PerpEntry) (acc : SpotPos) (c : String)
    (h : c ∉ l.map PerpEntry.coin) :
    dictGet (l.foldl (fun m p => dictSet m p.coin p.amount) acc) c = dictGet acc c := by
  induction l generalizing acc with
  | nil => rfl
  | cons p rest ih =>
      simp only [List.map_cons, List.mem_cons] at h
      push_neg at h
      rw [List.foldl_cons, ih _ h.2, dictGet_set_ne acc p.coin c p.amount h.1]

theorem perpRebuild_coins_sub (m : SpotPos) (c : String)
    (h : c ∈ (perpRebuild m).map PerpEntry.coin) : c ∈ dictKeys m := by
  rcases List.mem_map.mp h with ⟨e, he, rfl⟩
  rcases List.mem_filterMap.mp he with ⟨p, hp, hpe⟩
  refine List.mem_map.mpr ⟨p, hp, ?_⟩
  by_cases h1 : 0 < p.2
  · rw [if_pos h1] at hpe
    cases hpe
    rfl
  · rw [if_neg h1] at hpe
    by_cases h2 : p.2 < 0
    · rw [if_pos h2] at hpe
      cases hpe
      rfl
    · rw [if_neg h2] at hpe
      cases hpe

theorem foldl_perpSet_nodup (l : List PerpEntry) (acc : SpotPos)
    (h : (dictKeys acc).Nodup) :
    (dictKeys (l.foldl (fun m p => dictSet m p.coin p.amount) acc)).Nodup := by
  induction l generalizing acc with
  | nil => exact h
  | cons p rest ih =>
      rw [List.foldl_cons]
      exact ih _ (dictKeys_nodup_set acc p.coin p.amount h)

theorem perpToDict_keys_nodup (l : List PerpEntry) :
    (dictKeys (perpToDict l)).Nodup := by
  exact foldl_perpSet_nodup l [] (by simp [dictKeys])

theorem foldl_perpApplyChange_nodup (ch : List (String × PerpChange))
    (m : SpotPos) (h : (dictKeys m).Nodup) :
    (dictKeys (ch.foldl (fun m pc => perpApplyChange m pc.1 pc.2) m)).Nodup := by
  induction ch generalizing m with
  | nil => exact h
  | cons p rest ih =>
      rw [List.foldl_cons]
      apply ih
      rw [perpApplyChange]
      by_cases hb : p.2.side = "B"
      · rw [if_pos hb]
        by_cases hh : ratAbs (dictGet m p.1 - p.2.amount) < tinyThreshold
        · rw [if_pos hh]; exact dictKeys_nodup_erase m p.1 h
        · rw [if_neg hh]; exact dictKeys_nodup_set m p.1 _ h
      · rw [if_neg hb]
        by_cases ha : p.2.side = "A"
        · rw [if_pos ha]
          by_cases hh : ratAbs (dictGet m p.1 + p.2.amount) < tinyThreshold
          · rw [if_pos hh]; exact dictKeys_nodup_erase m p.1 h
          · rw [if_neg hh]; exact dictKeys_nodup_set m p.1 _ h
        · rw [if_neg ha]; exact h

/-- Round-tripping a dict with unique keys through `perpRebuild` and
`perpToDict` preserves every per-coin amount (dropped exact-zero entries
read back as 0 either way). -/
theorem dictGet_eq_zero_of_not_mem (m : SpotPos) (c : String)
    (h : c ∉ dictKeys m) : dictGet m c = 0 := by
  induction m with
  | nil => rfl
  | cons p rest ih =>
      simp only [dictKeys, List.map_cons, List.mem_cons] at h
      push_neg at h
      rw [dictGet]
      obtain ⟨k, v⟩ := p
      rw [if_neg (fun hh => h.1 hh.symm)]
      exact ih h.2

theorem perpToDict_rebuild_get (d : SpotPos) (c : String)
    (hd : (dictKeys d).Nodup) :
    dictGet (perpToDict (perpRebuild d)) c = dictGet d c := by
  induction d with
  | nil => rfl
  | cons p rest ih =>
      obtain ⟨k, v⟩ := p
      simp only [dictKeys, List.map_cons, List.nodup_cons] at hd
      have hrest := ih hd.2
      have hsub : k ∉ (perpRebuild rest).map PerpEntry.coin :=
        fun hmem => hd.1 (perpRebuild_coins_sub rest k hmem)
      by_cases hkc : k = c
      · subst hkc
        by_cases h1 : 0 < v
        · rw [show perpRebuild ((k, v) :: rest) = ⟨k, v, "long"⟩ :: perpRebuild rest by
            simp [perpRebuild, h1]]
          rw [perpToDict, List.foldl_cons, foldl_perpSet_not_mem _ _ _ hsub]
          simp [dictGet, dictSet]
        · by_cases h2 : v < 0
          · rw [show perpRebuild ((k, v) :: rest) = ⟨k, v, "short"⟩ :: perpRebuild rest by
              simp [perpRebuild, h1, h2]]
            rw [perpToDict, List.foldl_cons, foldl_perpSet_not_mem _ _ _ hsub]
            simp [dictGet, dictSet]
          · have hv : v = 0 := le_antisymm (not_lt.mp h1) (not_lt.mp h2)
            subst hv
            rw [show perpRebuild ((k, (0:ℚ)) :: rest) = perpRebuild rest by
              simp [perpRebuild]]
            rw [perpToDict] at hrest
            rw [perpToDict, hrest, dictGet_eq_zero_of_not_mem rest k hd.1]
            simp [dictGet]
      · by_cases h1 : 0 < v
        · rw [show perpRebuild ((k, v) :: rest) = ⟨k, v, "long"⟩ :: perpRebuild rest by
            simp [perpRebuild, h1]]
          rw [perpToDict, List.foldl_cons]
          rw [perpToDict] at hrest
          rw [foldl_perpSet_congr (perpRebuild rest) _ [] c
            (dictGet_set_ne [] k c v (fun hh => hkc hh.symm)), hrest]
          simp [dictGet, hkc]
        · by_cases h2 : v < 0
          · rw [show perpRebuild ((k, v) :: rest) = ⟨k, v, "short"⟩ :: perpRebuild rest by
              simp [perpRebuild, h1, h2]]
            rw [perpToDict, List.foldl_cons]
            rw [perpToDict] at hrest
            rw [foldl_perpSet_congr (perpRebuild rest) _ [] c
              (dictGet_set_ne [] k c v (fun hh => hkc hh.symm)), hrest]
            simp [dictGet, hkc]
          · have hv : v = 0 := le_antisymm (not_lt.mp h1) (not_lt.mp h2)
            subst hv
            rw [show perpRebuild ((k, (0:ℚ)) :: rest) = perpRebuild rest by
              simp [perpRebuild]]
            rw [hrest]
            simp [dictGet, hkc]

/-- Per-coin characterization of `undo_perp_event` under dict semantics. -/
theorem undo_perp_get (current : List PerpEntry)
    (ch : List (String × PerpChange)) (c : String)
    (hch : (ch.map Prod.fst).Nodup) :
    perpGet (undo_perp_event current ch) c =
      if ch.isEmpty then perpGet current c
      else match chLookupP ch c with
        | some info =>
            if info.side = "B" then roundTiny (perpGet current c - info.amount)
            else if info.side = "A" then roundTiny (perpGet current c + info.amount)
            else perpGet current c
        | none => perpGet current c := by
  by_cases he : ch.isEmpty
  · rw [undo_perp_event, if_pos he, if_pos he]
  · rw [undo_perp_event, if_neg he, if_neg he, perpGet,
      perpToDict_rebuild_get _ c
        (foldl_perpApplyChange_nodup ch _ (perpToDict_keys_nodup current)),
      foldl_perpApplyChange_get ch _ c hch]
    rfl

/-! ### Near-zero removal invariants of the undo steps -/

/-- After `applyChange m c δ`, every remaining binding of coin `c` has
magnitude at least `1e-10`. -/
theorem applyChange_no_tiny (m : SpotPos) (c : String) (δ : ℚ) (v : ℚ)
    (hv : (c, v) ∈ applyChange m c δ) : tinyThreshold ≤ ratAbs v := by
  rw [applyChange] at hv
  by_cases h : ratAbs (dictGet m c - δ) < tinyThreshold
  · rw [if_pos h] at hv
    exact absurd rfl ((mem_dictErase m c (c, v)).mp hv).2
  · rw [if_neg h] at hv
    rcases (mem_dictSet m c _ (c, v)).mp hv with heq | hm
    · cases heq
      exact not_lt.mp h
    · exact absurd rfl hm.2

/-- `applyChange` for another coin keeps bindings of `c` intact (subset
direction on memberships of `c`). -/
theorem mem_applyChange_other (m : SpotPos) (k c : String) (δ : ℚ) (v : ℚ)
    (hkc : c ≠ k) (hv : (c, v) ∈ applyChange m k δ) : (c, v) ∈ m := by
  rw [applyChange] at hv
  by_cases h : ratAbs (dictGet m k - δ) < tinyThreshold
  · rw [if_pos h] at hv
    exact ((mem_dictErase m k (c, v)).mp hv).1
  · rw [if_neg h] at hv
    rcases (mem_dictSet m k _ (c, v)).mp hv with heq | hm
    · cases heq
      exact absurd rfl hkc
    · exact hm.1

theorem foldl_applyChange_preserve (ch : List (String × ℚ)) (c : String)
    (hc : c ∉ ch.map Prod.fst) :
    ∀ pos : SpotPos, (∀ v : ℚ, (c, v) ∈ pos → tinyThreshold ≤ ratAbs v) →
      ∀ v : ℚ, (c, v) ∈ ch.foldl (fun m p => applyChange m p.1 p.2) pos →
        tinyThreshold ≤ ratAbs v := by
  induction ch with
  | nil => intro pos hpos v hv; exact hpos v hv
  | cons p rest ih =>
      intro pos hpos v hv
      simp only [List.map_cons, List.mem_cons] at hc
      push_neg at hc
      rw [List.foldl_cons] at hv
      refine ih hc.2 _ (fun w hw => hpos w ?_) v hv
      exact mem_applyChange_other pos p.1 c p.2 w hc.1 hw

theorem foldl_applyChange_no_tiny (ch : List (String × ℚ)) (c : String)
    (hc : c ∈ ch.map Prod.fst) :
    ∀ pos : SpotPos,
      ∀ v : ℚ, (c, v) ∈ ch.foldl (fun m p => applyChange m p.1 p.2) pos →
        tinyThreshold ≤ ratAbs v := by
  induction ch with
  | nil => cases hc
  | cons p rest ih =>
      intro pos v hv
      rw [List.foldl_cons] at hv
      by_cases hrest : c ∈ rest.map Prod.fst
      · exact ih hrest _ v hv
      · have hck : c = p.1 := by
          simp only [List.map_cons, List.mem_cons] at hc
          rcases hc with h | h
          · exact h
          · exact absurd h hrest
        refine foldl_applyChange_preserve rest c hrest _
          (fun w hw => applyChange_no_tiny pos c p.2 w ?_) v hv
        rw [← hck] at hw
        exact hw

theorem undoSpotStep2_no_tiny_usdc (m : SpotPos) (ac : ℚ)
    (hm : ∀ v : ℚ, ("USDC", v) ∈ m → tinyThreshold ≤ ratAbs v)
    (v : ℚ) (hv : ("USDC", v) ∈ undoSpotStep2 m ac) :
    tinyThreshold ≤ ratAbs v := by
  rw [undoSpotStep2] at hv
  by_cases hac : tinyThreshold < ratAbs ac
  · rw [if_pos hac] at hv
    by_cases h : ratAbs (dictGet m "USDC" - ac) < tinyThreshold
    · rw [if_pos h] at hv
      exact absurd rfl ((mem_dictErase m "USDC" _).mp hv).2
    · rw [if_neg h] at hv
      rcases (mem_dictSet m "USDC" _ _).mp hv with heq | hmem
      · cases heq
        exact not_lt.mp h
      · exact absurd rfl hmem.2
  · rw [if_neg hac] at hv
    exact hm v hv

theorem mem_undoSpotStep2_other (m : SpotPos) (ac : ℚ) (c : String) (v : ℚ)
    (hc : c ≠ "USDC") (hv : (c, v) ∈ undoSpotStep2 m ac) : (c, v) ∈ m := by
  rw [undoSpotStep2] at hv
  by_cases hac : tinyThreshold < ratAbs ac
  · rw [if_pos hac] at hv
    by_cases h : ratAbs (dictGet m "USDC" - ac) < tinyThreshold
    · rw [if_pos h] at hv
      exact ((mem_dictErase m "USDC" _).mp hv).1
    · rw [if_neg h] at hv
      rcases (mem_dictSet m "USDC" _ _).mp hv with heq | hmem
      · cases heq
        exact absurd rfl hc
      · exact hmem.1
  · rw [if_neg hac] at hv
    exact hv

/-- Any coin updated by `undo_spot_event` keeps no near-zero binding. -/
theorem undo_spot_no_tiny (pos : SpotPos) (ch : List (String × ℚ)) (ac : ℚ)
    (c : String) (hc : c ∈ ch.map Prod.fst) (v : ℚ)
    (hv : (c, v) ∈ undo_spot_event pos ch ac) : tinyThreshold ≤ ratAbs v := by
  rw [undo_spot_event] at hv
  by_cases hcu : c = "USDC"
  · subst hcu
    exact undoSpotStep2_no_tiny_usdc _ ac
      (fun w hw => foldl_applyChange_no_tiny ch "USDC" hc pos w hw) v hv
  · exact foldl_applyChange_no_tiny ch c hc pos v
      (mem_undoSpotStep2_other _ ac c v hcu hv)

theorem mem_perpApplyChange_other (m : SpotPos) (k c : String)
    (info : PerpChange) (v : ℚ) (hkc : c ≠ k)
    (hv : (c, v) ∈ perpApplyChange m k info) : (c, v) ∈ m := by
  rw [perpApplyChange] at hv
  by_cases hb : info.side = "B"
  · rw [if_pos hb] at hv
    by_cases h : ratAbs (dictGet m k - info.amount) < tinyThreshold
    · rw [if_pos h] at hv
      exact ((mem_dictErase m k _).mp hv).1
    · rw [if_neg h] at hv
      rcases (mem_dictSet m k _ _).mp hv with heq | hmem
      · cases heq
        exact absurd rfl hkc
      · exact hmem.1
  · rw [if_neg hb] at hv
    by_cases ha : info.side = "A"
    · rw [if_pos ha] at hv
      by_cases h : ratAbs (dictGet m k + info.amount) < tinyThreshold
      · rw [if_pos h] at hv
        exact ((mem_dictErase m k _).mp hv).1
      · rw [if_neg h] at hv
        rcases (mem_dictSet m k _ _).mp hv with heq | hmem
        · cases heq
          exact absurd rfl hkc
        · exact hmem.1
    · rw [if_neg ha] at hv
      exact hv

theorem perpApplyChange_no_tiny (m : SpotPos) (c : String) (info : PerpChange)
    (hside : info.side = "B" ∨ info.side = "A") (v : ℚ)
    (hv : (c, v) ∈ perpApplyChange m c info) : tinyThreshold ≤ ratAbs v := by
  rw [perpApplyChange] at hv
  rcases hside with hb | ha
  · rw [if_pos hb] at hv
    by_cases h : ratAbs (dictGet m c - info.amount) < tinyThreshold
    · rw [if_pos h] at hv
      exact absurd rfl ((mem_dictErase m c _).mp hv).2
    · rw [if_neg h] at hv
      rcases (mem_dictSet m c _ _).mp hv with heq | hmem
      · cases heq
        exact not_lt.mp h
      · exact absurd rfl hmem.2
  · by_cases hb : info.side = "B"
    · rw [if_pos hb] at hv
      by_cases h : ratAbs (dictGet m c - info.amount) < tinyThreshold
      · rw [if_pos h] at hv
        exact absurd rfl ((mem_dictErase m c _).mp hv).2
      · rw [if_neg h] at hv
        rcases (mem_dictSet m c _ _).mp hv with heq | hmem
        · cases heq
          exact not_lt.mp h
        · exact absurd rfl hmem.2
    · rw [if_neg hb, if_pos ha] at hv
      by_cases h : ratAbs (dictGet m c + info.amount) < tinyThreshold
      · rw [if_pos h] at hv
        exact absurd rfl ((mem_dictErase m c _).mp hv).2
      · rw [if_neg h] at hv
        rcases (mem_dictSet m c _ _).mp hv with heq | hmem
        · cases heq
          exact not_lt.mp h
        · exact absurd rfl hmem.2

theorem foldl_perpApply_preserve (ch : List (String × PerpChange)) (c : String)
    (hc : c ∉ ch.map Prod.fst) :
    ∀ m : SpotPos, (∀ v : ℚ, (c, v) ∈ m → tinyThreshold ≤ ratAbs v) →
      ∀ v : ℚ, (c, v) ∈ ch.foldl (fun m pc => perpApplyChange m pc.1 pc.2) m →
        tinyThreshold ≤ ratAbs v := by
  induction ch with
  | nil => intro m hm v hv; exact hm v hv
  | cons p rest ih =>
      intro m hm v hv
      simp only [List.map_cons, List.mem_cons] at hc
      push_neg at hc
      rw [List.foldl_cons] at hv
      refine ih hc.2 _ (fun w hw => hm w ?_) v hv
      exact mem_perpApplyChange_other m p.1 c p.2 w hc.1 hw

theorem foldl_perpApply_no_tiny (ch : List (String × PerpChange)) (c : String)
    (hc : c ∈ ch.map Prod.fst)
    (hsides : ∀ p ∈ ch, p.2.side = "B" ∨ p.2.side = "A") :
    ∀ m : SpotPos,
      ∀ v : ℚ, (c, v) ∈ ch.foldl (fun m pc => perpApplyChange m pc.1 pc.2) m →
        tinyThreshold ≤ ratAbs v := by
  induction ch with
  | nil => cases hc
  | cons p rest ih =>
      intro m v hv
      rw [List.foldl_cons] at hv
      by_cases hrest : c ∈ rest.map Prod.fst
      · exact ih hrest (fun q hq => hsides q (List.mem_cons_of_mem _ hq)) _ v hv
      · have hck : c = p.1 := by
          simp only [List.map_cons, List.mem_cons] at hc
          rcases hc with h | h
          · exact h
          · exact absurd h hrest
        refine foldl_perpApply_preserve rest c hrest _ (fun w hw => ?_) v hv
        refine perpApplyChange_no_tiny m c p.2
          (hsides p (List.mem_cons_self _ _)) w ?_
        rw [← hck] at hw
        exact hw

theorem mem_perpRebuild (d : SpotPos) (e : PerpEntry)
    (he : e ∈ perpRebuild d) : (e.coin, e.amount) ∈ d := by
  rcases List.mem_filterMap.mp he with ⟨p, hp, hpe⟩
  by_cases h1 : 0 < p.2
  · rw [if_pos h1] at hpe
    cases hpe
    exact hp
  · rw [if_neg h1] at hpe
    by_cases h2 : p.2 < 0
    · rw [if_pos h2] at hpe
      cases hpe
      exact hp
    · rw [if_neg h2] at hpe
      cases hpe

theorem perpRebuild_dir (d : SpotPos) (e : PerpEntry) (he : e ∈ perpRebuild d) :
    (0 < e.amount ∧ e.dir = "long") ∨ (e.amount < 0 ∧ e.dir = "short") := by
  rcases List.mem_filterMap.mp he with ⟨p, hp, hpe⟩
  by_cases h1 : 0 < p.2
  · rw [if_pos h1] at hpe
    cases hpe
    exact Or.inl ⟨h1, rfl⟩
  · rw [if_neg h1] at hpe
    by_cases h2 : p.2 < 0
    · rw [if_pos h2] at hpe
      cases hpe
      exact Or.inr ⟨h2, rfl⟩
    · rw [if_neg h2] at hpe
      cases hpe

/-- Every entry produced by an undo with a non-empty change set carries a
sign-consistent direction tag. -/
theorem undo_perp_dir (current : List PerpEntry)
    (ch : List (String × PerpChange)) (hne : ch.isEmpty = false)
    (e : PerpEntry) (he : e ∈ undo_perp_event current ch) :
    (0 < e.amount ∧ e.dir = "long") ∨ (e.amount < 0 ∧ e.dir = "short") := by
  rw [undo_perp_event, hne] at he
  exact perpRebuild_dir _ e (by simpa using he)

/-- Any coin updated by `undo_perp_event` with valid sides keeps no
near-zero amount. -/
theorem undo_perp_no_tiny (current : List PerpEntry)
    (ch : List (String × PerpChange)) (c : String)
    (hc : c ∈ ch.map Prod.fst)
    (hsides : ∀ p ∈ ch, p.2.side = "B" ∨ p.2.side = "A")
    (e : PerpEntry) (he : e ∈ undo_perp_event current ch) (hec : e.coin = c) :
    tinyThreshold ≤ ratAbs e.amount := by
  have hne : ch.isEmpty = false := by
    cases ch with
    | nil => cases hc
    | cons p rest => rfl
  rw [undo_perp_event, hne] at he
  have hmem := mem_perpRebuild _ e (by simpa using he)
  rw [hec] at hmem
  exact foldl_perpApply_no_tiny ch c hc hsides _ e.amount hmem

/-! ### Net value recurrence (`NetValueCalculatorV2.calculate_net_value`) -/

theorem tinyThreshold_pos : 0 < tinyThreshold := by norm_num [tinyThreshold]

theorem ne_zero_of_tiny_lt (s : ℚ) (h : tinyThreshold < ratAbs s) : s ≠ 0 := by
  intro h0
  subst h0
  rw [ratAbs_eq_abs, abs_zero] at h
  exact absurd h (not_lt.mpr (le_of_lt tinyThreshold_pos))

theorem nvLoop_length (events : List NVEvent) (bs : List NVBucket) :
    ∀ pts psh pnv, (nvLoop events pts psh pnv bs).length = bs.length := by
  induction bs with
  | nil => intro pts psh pnv; rfl
  | cons b rest ih =>
      intro pts psh pnv
      rw [nvLoop, List.length_cons, List.length_cons, ih]

theorem nvScan_length (events : List NVEvent) (bs : List NVBucket) :
    (nvScan events bs).length = bs.length := by
  induction bs with
  | nil => rfl
  | cons b rest ih =>
      rw [nvScan]
      by_cases h : tinyThreshold < ratAbs b.totalAssets
      · rw [if_pos h, List.length_cons, List.length_cons, nvLoop_length]
      · rw [if_neg h, List.length_cons, List.length_cons, ih]

theorem nvLoop_getD_zero_rel (bs : List NVBucket) (events : List NVEvent)
    (p : NVRow)
    (h : 0 < (nvLoop events p.timestamp p.totalShares p.netValue bs).length) :
    nvStepRel events p
      ((nvLoop events p.timestamp p.totalShares p.netValue bs).getD 0 nvDefault) := by
  cases bs with
  | nil => simp [nvLoop] at h
  | cons b rest =>
      rw [nvLoop, List.getD_cons_zero]
      exact ⟨rfl, rfl⟩

theorem nvLoop_getD_succ (bs : List NVBucket) (events : List NVEvent) :
    ∀ pts psh pnv i,
      i + 1 < (nvLoop events pts psh pnv bs).length →
      nvStepRel events ((nvLoop events pts psh pnv bs).getD i nvDefault)
        ((nvLoop events pts psh pnv bs).getD (i + 1) nvDefault) := by
  induction bs with
  | nil => intro pts psh pnv i h; simp [nvLoop] at h
  | cons b rest ih =>
      intro pts psh pnv i h
      rw [nvLoop] at h ⊢
      cases i with
      | zero =>
          rw [List.getD_cons_zero, List.getD_cons_succ]
          rw [List.length_cons, Nat.add_lt_add_iff_right] at h
          exact nvLoop_getD_zero_rel rest events _ h
      | succ j =>
          rw [List.getD_cons_succ, List.getD_cons_succ]
          rw [List.length_cons, Nat.add_lt_add_iff_right] at h
          exact ih _ _ _ j h

theorem nvScan_getD_succ (bs : List NVBucket) (events : List NVEvent) :
    ∀ i, i + 1 < (nvScan events bs).length →
      tinyThreshold < ratAbs ((nvScan events bs).getD i nvDefault).netValue →
      nvStepRel events ((nvScan events bs).getD i nvDefault)
        ((nvScan events bs).getD (i + 1) nvDefault) := by
  induction bs with
  | nil => intro i h; simp [nvScan] at h
  | cons b rest ih =>
      intro i h hnv
      rw [nvScan] at h hnv ⊢
      by_cases hb : tinyThreshold < ratAbs b.totalAssets
      · rw [if_pos hb] at h hnv ⊢
        cases i with
        | zero =>
            rw [List.getD_cons_zero, List.getD_cons_succ]
            rw [List.length_cons, Nat.add_lt_add_iff_right] at h
            exact nvLoop_getD_zero_rel rest events _ h
        | succ j =>
            rw [List.getD_cons_succ, List.getD_cons_succ]
            rw [List.length_cons, Nat.add_lt_add_iff_right] at h
            exact nvLoop_getD_succ rest events _ _ _ j h
      · rw [if_neg hb] at h hnv ⊢
        cases i with
        | zero =>
            rw [List.getD_cons_zero] at hnv
            rw [show (⟨b.timestamp, b.totalAssets, 0, 0⟩ : NVRow).netValue = 0
              from rfl] at hnv
            rw [ratAbs_eq_abs, abs_zero] at hnv
            exact absurd hnv (not_lt.mpr (le_of_lt tinyThreshold_pos))
        | succ j =>
            rw [List.getD_cons_succ, List.getD_cons_succ]
            rw [List.length_cons, Nat.add_lt_add_iff_right] at h
            exact ih j h (by rwa [List.getD_cons_succ] at hnv)

/-- Invariant of a row built by the per-bucket loop. -/
theorem mkRow_inv (ts : ℤ) (a s : ℚ) :
    NVInv ⟨ts, a, s, if tinyThreshold < ratAbs s then a / s else 0⟩ := by
  constructor
  · intro hsh
    dsimp only at hsh ⊢
    rw [if_pos hsh]
    exact div_mul_cancel₀ a (ne_zero_of_tiny_lt s hsh)
  · intro hnv
    dsimp only at hnv ⊢
    by_cases hsh : tinyThreshold < ratAbs s
    · refine ⟨hsh, ?_⟩
      rw [if_pos hsh]
    · rw [if_neg hsh] at hnv
      exact absurd rfl hnv

theorem nvLoop_inv (bs : List NVBucket) (events : List NVEvent) :
    ∀ pts psh pnv, ∀ r ∈ nvLoop events pts psh pnv bs, NVInv r := by
  induction bs with
  | nil => intro pts psh pnv r hr; cases hr
  | cons b rest ih =>
      intro pts psh pnv r hr
      rw [nvLoop] at hr
      rcases List.mem_cons.mp hr with rfl | hr'
      · exact mkRow_inv b.timestamp b.totalAssets _
      · exact ih _ _ _ r hr'

theorem nvScan_inv (bs : List NVBucket) (events : List NVEvent) :
    ∀ r ∈ nvScan events bs, NVInv r := by
  induction bs with
  | nil => intro r hr; cases hr
  | cons b rest ih =>
      intro r hr
      rw [nvScan] at hr
      by_cases hb : tinyThreshold < ratAbs b.totalAssets
      · rw [if_pos hb] at hr
        rcases List.mem_cons.mp hr with rfl | hr'
        · constructor
          · intro _
            exact one_mul b.totalAssets
          · intro _
            exact ⟨hb, (div_self (ne_zero_of_tiny_lt _ hb)).symm⟩
        · exact nvLoop_inv rest events _ _ _ r hr'
      · rw [if_neg hb] at hr
        rcases List.mem_cons.mp hr with rfl | hr'
        · constructor
          · intro hsh
            rw [ratAbs_eq_abs, abs_zero] at hsh
            exact absurd hsh (not_lt.mpr (le_of_lt tinyThreshold_pos))
          · intro hnv
            exact absurd rfl hnv
        · exact ih r hr'

/-! ### Time-interval generation (`NetValueCalculatorV2.generate_time_intervals`) -/

theorem foldl_applyAdd_get (ch : List (String × ℚ)) (pos : SpotPos)
    (c : String) (hch : (ch.map Prod.fst).Nodup) :
    dictGet (ch.foldl (fun m p => dictSet m p.1 (dictGet m p.1 + p.2)) pos) c =
      dictGet pos c + (match chLookup ch c with
        | some δ => δ
        | none => 0) := by
  induction ch generalizing pos with
  | nil => rw [List.foldl_nil, chLookup, add_zero]
  | cons p rest ih =>
      obtain ⟨k, δ⟩ := p
      simp only [List.map_cons, List.nodup_cons] at hch
      rw [List.foldl_cons]
      by_cases hkc : k = c
      · subst hkc
        rw [chLookup, if_pos rfl, ih _ hch.2, chLookup_eq_none rest k hch.1,
          dictGet_set_self, add_zero]
      · rw [chLookup, if_neg hkc, ih _ hch.2,
          dictGet_set_ne pos k c _ (fun h => hkc h.symm)]

theorem apply_spot_get (pos : SpotPos) (ch : List (String × ℚ)) (ac : ℚ)
    (c : String) (hch : (ch.map Prod.fst).Nodup) :
    dictGet (apply_spot_event pos ch ac) c =
      dictGet pos c + (match chLookup ch c with
        | some δ => δ
        | none => 0) + (if c = "USDC" then ac else 0) := by
  rw [apply_spot_event]
  by_cases hc : c = "USDC"
  · subst hc
    rw [dictGet_set_self, if_pos rfl, foldl_applyAdd_get ch pos "USDC" hch]
  · rw [dictGet_set_ne _ _ _ _ hc, if_neg hc, add_zero,
      foldl_applyAdd_get ch pos c hch]

theorem foldl_perpAdd_get (ch : List (String × PerpChange)) (m : SpotPos)
    (c : String) (hch : (ch.map Prod.fst).Nodup) :
    dictGet (ch.foldl (fun m pc =>
      if pc.2.side = "B" then dictSet m pc.1 (dictGet m pc.1 + pc.2.amount)
      else if pc.2.side = "A" then dictSet m pc.1 (dictGet m pc.1 - pc.2.amount)
      else m) m) c =
      dictGet m c + (match chLookupP ch c with
        | some info =>
            if info.side = "B" then info.amount
            else if info.side = "A" then -info.amount
            else 0
        | none => 0) := by
  induction ch generalizing m with
  | nil => rw [List.foldl_nil, chLookupP, add_zero]
  | cons p rest ih =>
      obtain ⟨k, info⟩ := p
      simp only [List.map_cons, List.nodup_cons] at hch
      rw [List.foldl_cons]
      dsimp only
      by_cases hkc : k = c
      · subst hkc
        rw [chLookupP, if_pos rfl, ih _ hch.2, chLookupP_eq_none rest k hch.1]
        dsimp only
        by_cases hb : info.side = "B"
        · rw [if_pos hb, if_pos hb, dictGet_set_self, add_zero]
        · rw [if_neg hb, if_neg hb]
          by_cases ha : info.side = "A"
          · rw [if_pos ha, if_pos ha, dictGet_set_self, add_zero, sub_eq_add_neg]
          · rw [if_neg ha, if_neg ha, add_zero]
      · rw [chLookupP, if_neg hkc, ih _ hch.2]
        by_cases hb : info.side = "B"
        · rw [if_pos hb, dictGet_set_ne m k c _ (fun h => hkc h.symm)]
        · rw [if_neg hb]
          by_cases ha : info.side = "A"
          · rw [if_pos ha, dictGet_set_ne m k c _ (fun h => hkc h.symm)]
          · rw [if_neg ha]

theorem foldl_perpAdd_nodup (ch : List (String × PerpChange)) (m : SpotPos)
    (h : (dictKeys m).Nodup) :
    (dictKeys (ch.foldl (fun m pc =>
      if pc.2.side = "B" then dictSet m pc.1 (dictGet m pc.1 + pc.2.amount)
      else if pc.2.side = "A" then dictSet m pc.1 (dictGet m pc.1 - pc.2.amount)
      else m) m)).Nodup := by
  induction ch generalizing m with
  | nil => exact h
  | cons p rest ih =>
      rw [List.foldl_cons]
      apply ih
      by_cases hb : p.2.side = "B"
      · rw [if_pos hb]; exact dictKeys_nodup_set m p.1 _ h
      · rw [if_neg hb]
        by_cases ha : p.2.side = "A"
        · rw [if_pos ha]; exact dictKeys_nodup_set m p.1 _ h
        · rw [if_neg ha]; exact h

theorem apply_perp_get (pos : List PerpEntry) (ch : List (String × PerpChange))
    (c : String) (hch : (ch.map Prod.fst).Nodup) :
    perpGet (apply_perp_event pos ch) c =
      perpGet pos c + (match chLookupP ch c with
        | some info =>
            if info.side = "B" then info.amount
            else if info.side = "A" then -info.amount
            else 0
        | none => 0) := by
  by_cases he : ch.isEmpty
  · have : ch = [] := by
      cases ch with
      | nil => rfl
      | cons a l => cases he
    subst this
    simp [apply_perp_event, chLookupP]
  · rw [apply_perp_event, if_neg he, perpGet,
      perpToDict_rebuild_get _ c (foldl_perpAdd_nodup ch _ (perpToDict_keys_nodup pos)),
      foldl_perpAdd_get ch _ c hch]
    rfl

theorem chLookupP_mem (ch : List (String × PerpChange)) (c : String)
    (info : PerpChange) (h : chLookupP ch c = some info) : (c, info) ∈ ch := by
  induction ch with
  | nil => cases h
  | cons p rest ih =>
      obtain ⟨k, i⟩ := p
      rw [chLookupP] at h
      by_cases hkc : k = c
      · rw [if_pos hkc] at h
        cases h
        subst hkc
        exact List.mem_cons_self _ _
      · rw [if_neg hkc] at h
        exact List.mem_cons_of_mem _ (ih h)

/-! ### Event normalization (`EventImpactRecorder`, event_impact_recorder.py) -/

theorem record_send_impact_error (addr : String) (d : LedgerDelta)
    (h : addr ≠ "") :
    isError (record_send_impact addr d) =
      (!sendAnyCase addr d ||
        (sendReach3 addr d && !decide (d.token = "USDC")) ||
        (sendReach5 addr d && !decide (d.token = "USDC"))) := by
  rw [record_send_impact, if_neg h]
  by_cases h1 : sendCase1 addr d
  · simp [h1, sendAnyCase, sendReach3, sendReach5, isError]
  · by_cases h2 : sendCase2 addr d
    · simp [h1, h2, sendAnyCase, sendReach3, sendReach5, isError]
    · by_cases h3 : sendCase3 addr d
      · by_cases ht : d.token = "USDC"
        · simp [h1, h2, h3, ht, sendAnyCase, sendReach3, sendReach5, isError]
        · simp [h1, h2, h3, ht, sendAnyCase, sendReach3, sendReach5, isError]
      · by_cases h4 : sendCase4 addr d
        · simp [h1, h2, h3, h4, sendAnyCase, sendReach3, sendReach5, isError]
        · by_cases h5 : sendCase5 addr d
          · by_cases ht : d.token = "USDC"
            · simp [h1, h2, h3, h4, h5, ht, sendAnyCase, sendReach3,
                sendReach5, isError]
            · simp [h1, h2, h3, h4, h5, ht, sendAnyCase, sendReach3,
                sendReach5, isError]
          · by_cases h6 : sendCase6 addr d
            · simp [h1, h2, h3, h4, h5, h6, sendAnyCase, sendReach3,
                sendReach5, isError]
            · simp [h1, h2, h3, h4, h5, h6, sendAnyCase, sendReach3,
                sendReach5, isError]

theorem record_ledger_impact_error (addr : String) (st : String)
    (d : LedgerDelta) (h : addr ≠ "") :
    isError (record_ledger_impact addr st d) =
      (!decide (st ∈ ledgerSubtypes) ||
        (decide (st = "send") &&
          (!sendAnyCase addr d ||
            (sendReach3 addr d && !decide (d.token = "USDC")) ||
            (sendReach5 addr d && !decide (d.token = "USDC"))))) := by
  by_cases hsend : st = "send"
  · subst hsend
    have hred : record_ledger_impact addr "send" d = record_send_impact addr d := by
      rfl
    rw [hred, record_send_impact_error addr d h]
    rfl
  · by_cases e1 : st = "deposit"
    · subst e1; rfl
    · by_cases e2 : st = "withdraw"
      · subst e2; rfl
      · by_cases e3 : st = "accountClassTransfer"
        · subst e3; rfl
        · by_cases e4 : st = "spotTransfer"
          · subst e4; rfl
          · by_cases e5 : st = "internalTransfer"
            · subst e5; rfl
            · by_cases e6 : st = "subAccountTransfer"
              · subst e6; rfl
              · by_cases e7 : st = "vaultCreate"
                · subst e7; rfl
                · by_cases e8 : st = "vaultDeposit"
                  · subst e8; rfl
                  · by_cases e9 : st = "vaultWithdraw"
                    · subst e9; rfl
                    · by_cases e10 : st = "vaultDistribution"
                      · subst e10; rfl
                      · by_cases e11 : st = "spotGenesis"
                        · subst e11; rfl
                        · by_cases e13 : st = "cStakingTransfer"
                          · subst e13; rfl
                          · by_cases e14 : st = "liquidation"
                            · subst e14; rfl
                            · by_cases e15 : st = "rewardsClaim"
                              · subst e15; rfl
                              · by_cases e16 : st = "activateDexAbstraction"
                                · subst e16; rfl
                                · by_cases e17 : st = "accountActivationGas"
                                  · subst e17; rfl
                                  · have hmem : ¬ st ∈ ledgerSubtypes := by
                                      simp only [ledgerSubtypes, List.mem_cons, List.not_mem_nil, or_false]
                                      push_neg
                                      exact ⟨e1, e2, e3, e4, e5, e6, e7, e8, e9, e10, e11, hsend, e13, e14, e15, e16, e17⟩
                                    rw [record_ledger_impact, if_neg e1, if_neg e2, if_neg e3, if_neg e4, if_neg e5, if_neg e6, if_neg e7, if_neg e8, if_neg e9, if_neg e10, if_neg e11, if_neg hsend, if_neg e13, if_neg e14, if_neg e15, if_neg e16, if_neg e17]
                                    rw [show isError (Except.error "unknown ledger type") = true from rfl,
                                      decide_eq_false hmem]
                                    rfl

theorem record_perp_trade_impact_error (t : TradeData) :
    isError (record_perp_trade_impact t) =
      !(decide (t.side = "B") || decide (t.side = "A")) := by
  rw [record_perp_trade_impact]
  by_cases hs : t.side = "B" ∨ t.side = "A"
  · rw [if_pos hs]
    rcases hs with h | h <;> simp [isError, h]
  · rw [if_neg hs]
    push_neg at hs
    simp [isError, hs.1, hs.2]

theorem record_spot_trade_impact_error (t : TradeData) :
    isError (record_spot_trade_impact t) =
      !(decide (t.side = "B") || decide (t.side = "A")) := by
  rw [record_spot_trade_impact]
  by_cases hs : t.side = "B" ∨ t.side = "A"
  · rw [if_pos hs]
    split_ifs <;> rcases hs with h | h <;> simp [isError, h]
  · rw [if_neg hs]
    push_neg at hs
    simp [isError, hs.1, hs.2]

theorem record_event_impact_error (addr : String) (e : Event) (h : addr ≠ "") :
    isError (record_event_impact addr e) = c7AmendedFatal addr e := by
  cases e with
  | trade st t =>
      simp only [record_event_impact, c7AmendedFatal]
      by_cases h1 : st = "perp" ∨ st = "perps"
      · rw [if_pos h1, record_perp_trade_impact_error]
        have hst : (decide (st = "perp") || decide (st = "perps") ||
            decide (st = "spot")) = true := by
          rcases h1 with hh | hh <;> simp [hh]
        rw [hst, Bool.true_and]
      · by_cases h2 : st = "spot"
        · rw [if_neg h1, if_pos h2, record_spot_trade_impact_error]
          have hst : (decide (st = "perp") || decide (st = "perps") ||
              decide (st = "spot")) = true := by simp [h2]
          rw [hst, Bool.true_and]
        · rw [if_neg h1, if_neg h2]
          push_neg at h1
          have hst : (decide (st = "perp") || decide (st = "perps") ||
              decide (st = "spot")) = false := by simp [h1.1, h1.2, h2]
          rw [hst, Bool.false_and]
          rfl
  | funding f => rfl
  | ledger st d => exact record_ledger_impact_error addr st d h
  | other => rfl

/-! ### Claim theorems -/

/-- C3: during backward reconstruction, at every row that carries an
attached snapshot, after the comparison is performed the working position
(spot and perp) is replaced by the snapshot's values — regardless of
whether the comparison matched (no hypothesis on the comparison outcome
appears) — before any older row is processed; consequently the
reconstructed working position at each snapshot point equals the snapshot
exactly. -/
theorem c3_snapshot_overwrite (spot : SpotPos) (perp : List PerpEntry)
    (rows : List BackRow) (i : ℕ) (snapSpot : SpotPos)
    (snapPerp : List PerpEntry) (hi : i < rows.length)
    (hsnap : (rows.getD i ⟨[], 0, [], none⟩).snapshot = some (snapSpot, snapPerp)) :
    (backStates spot perp rows).getD i ([], []) = (snapSpot, snapPerp) := by
  induction rows generalizing spot perp i with
  | nil => simp at hi
  | cons row rest ih =>
      cases i with
      | zero =>
          rw [List.getD_cons_zero] at hsnap
          rw [backStates, List.getD_cons_zero, backStep, backStepFull, hsnap]
      | succ j =>
          rw [List.getD_cons_succ] at hsnap
          rw [List.length_cons, Nat.add_lt_add_iff_right] at hi
          rw [backStates, List.getD_cons_succ]
          exact ih _ _ j hi hsnap

/-- Witness for C3: a snapshot row whose comparison mismatches (working
ETH 5.2 against snapshot 5) still forces the working position to the
snapshot. -/
theorem c3_snapshot_overwrite_witness :
    0 < ([⟨[], 0, [], some ([("ETH", 5)], [])⟩] : List BackRow).length ∧
    (backStates [("ETH", 26/5)] []
        [⟨[], 0, [], some ([("ETH", 5)], [])⟩]).getD 0 ([], [])
      = ([("ETH", 5)], []) :=
  ⟨by decide,
   c3_snapshot_overwrite [("ETH", 26/5)] []
     [⟨[], 0, [], some ([("ETH", 5)], [])⟩] 0 [("ETH", 5)] []
     (by decide) (by rfl)⟩

/-- C6: the snapshot-validation comparison declares a coin matched iff
`|calc − snap| ≤ 0.01` or (when the snapshot amount is non-zero)
`|calc − snap| / |snap| ≤ 1%`; in particular a reconstructed 5.2 against a
snapshot of 5 is flagged as a mismatch, and at such a row the working
position is forced to the snapshot value of 5. -/
theorem c6_tolerance_spec :
    (∀ calcAmount snapAmount : ℚ,
      is_within_tolerance calcAmount snapAmount = true ↔
        (|calcAmount - snapAmount| ≤ 1 / 100 ∨
          (snapAmount ≠ 0 ∧
            |calcAmount - snapAmount| / |snapAmount| ≤ 1 / 100))) ∧
    is_within_tolerance (26/5) 5 = false ∧
    compare_spot [("ETH", 26/5)] [("ETH", 5)] = false ∧
    (backStepFull [("ETH", 26/5)] [] ⟨[], 0, [], some ([("ETH", 5)], [])⟩).1.1
      = [("ETH", 5)] := by
  refine ⟨?_, ?_, ?_, ?_⟩
  · intro cA sA
    simp only [is_within_tolerance, ratAbs_eq_abs]
    by_cases h1 : |cA - sA| ≤ 1 / 100
    · rw [if_pos h1]
      exact iff_of_true rfl (Or.inl h1)
    · rw [if_neg h1]
      by_cases h2 : tinyThreshold < |sA|
      · rw [if_pos h2]
        simp only [decide_eq_true_eq]
        constructor
        · intro hr
          refine Or.inr ⟨?_, hr⟩
          intro h0
          rw [h0, abs_zero] at h2
          exact absurd h2 (not_lt.mpr (le_of_lt tinyThreshold_pos))
        · rintro (hl | ⟨_, hr⟩)
          · exact absurd hl h1
          · exact hr
      · rw [if_neg h2]
        constructor
        · intro hfalse
          cases hfalse
        · rintro (hl | ⟨hne, hr⟩)
          · exact absurd hl h1
          · exfalso
            have hpos : 0 < |sA| := abs_pos.mpr hne
            have hle : |cA - sA| ≤ 1 / 100 * |sA| := by
              rw [div_le_iff₀ hpos] at hr
              linarith
            have hsmall : |sA| ≤ tinyThreshold := not_lt.mp h2
            have : |cA - sA| ≤ 1 / 100 := by
              have ht1 : tinyThreshold ≤ 1 := by norm_num [tinyThreshold]
              nlinarith [abs_nonneg (cA - sA), abs_nonneg sA]
            exact absurd this h1
  · norm_num [is_within_tolerance, tinyThreshold, ratAbs]
  · norm_num [compare_spot, is_within_tolerance, tinyThreshold, ratAbs, dictGet]
  · norm_num [backStepFull, undo_spot_event, undoSpotStep2, undo_perp_event,
      ratAbs, tinyThreshold, dictGet]

/-- C8: for every perpetual trade with a valid side an Impact is produced —
the fee-token value is never fatal — and its
`perp_asset_change_ex_position` equals `−fee` when the fee token is
`'USDC'` and `0` (fee dropped, with a warning) for every other fee token. -/
theorem c8_perp_fee (t : TradeData) (h : t.side = "B" ∨ t.side = "A") :
    ∃ imp : Impact, record_perp_trade_impact t = Except.ok imp ∧
      imp.perpAssetChangeExPosition =
        (if t.feeToken = "USDC" then -t.fee else 0) := by
  rw [record_perp_trade_impact, if_pos h]
  exact ⟨_, rfl, rfl⟩

/-- Witness for C8: a buy trade with fee token HYPE produces an Impact
whose perp asset change is 0 (fee dropped), not an error. -/
theorem c8_perp_fee_witness :
    (("B" : String) = "B" ∨ ("B" : String) = "A") ∧
    ∃ imp : Impact,
      record_perp_trade_impact
        { side := "B", fee := 7, feeToken := "HYPE" } = Except.ok imp ∧
      imp.perpAssetChangeExPosition =
        (if ("HYPE" : String) = "USDC" then -(7 : ℚ) else 0) :=
  ⟨Or.inl rfl,
   c8_perp_fee { side := "B", fee := 7, feeToken := "HYPE" } (Or.inl rfl)⟩

/-- C5 (code bug, caculate_net_value_v2.py line 189): the generated grid's
last bucket comes from the LAST EVENT's timestamp, not from the last
snapshot-recorded event as the claim (and the function's own docstring and
dead `if`/`else` block) state: with a snapshot-recorded event at 0 ms, a
later unsnapshotted event at 7 200 000 ms, and 1-hour buckets, the code
produces three buckets where the documented behaviour produces one. -/
theorem c5_interval_end_eval :
    generate_time_intervals [⟨0, true⟩, ⟨7200000, false⟩] 3600000
        = [0, 3600000, 7200000] ∧
    generate_time_intervals_spec [⟨0, true⟩, ⟨7200000, false⟩] 3600000
        = [0] ∧
    generate_time_intervals [⟨0, true⟩, ⟨7200000, false⟩] 3600000 ≠
      generate_time_intervals_spec [⟨0, true⟩, ⟨7200000, false⟩] 3600000 := by
  refine ⟨?_, ?_, ?_⟩ <;> decide

theorem resolveDelta_of_guard (nv : ℚ) (h : tinyThreshold < ratAbs nv)
    (e : NVEvent) :
    resolveDelta nv e = (match e.shareChange with
      | none => 0
      | some v => v / nv) := by
  cases e with
  | mk ts sc =>
      cases sc with
      | none => rfl
      | some v =>
          show (if tinyThreshold < ratAbs nv then v / nv else 0) = v / nv
          exact if_pos h

/-- C1 (counterexample): when the previous bucket's net value is non-zero
but at most `1e-10` (here `1e-11`), the code contributes NO share delta,
while the claim's formula divides the numerator by that net value:
total shares stay at 1 instead of becoming `1 + 5·10¹¹`. -/
theorem c1_counterexample :
    ((calculate_net_value [⟨0, 1⟩, ⟨10, 1/10^11⟩, ⟨20, 1⟩]
        [⟨15, some 5⟩]).getD 1 nvDefault).netValue = 1/10^11 ∧
    ((calculate_net_value [⟨0, 1⟩, ⟨10, 1/10^11⟩, ⟨20, 1⟩]
        [⟨15, some 5⟩]).getD 2 nvDefault).totalShares =
      ((calculate_net_value [⟨0, 1⟩, ⟨10, 1/10^11⟩, ⟨20, 1⟩]
        [⟨15, some 5⟩]).getD 1 nvDefault).totalShares ∧
    ((calculate_net_value [⟨0, 1⟩, ⟨10, 1/10^11⟩, ⟨20, 1⟩]
        [⟨15, some 5⟩]).getD 2 nvDefault).totalShares ≠
      ((calculate_net_value [⟨0, 1⟩, ⟨10, 1/10^11⟩, ⟨20, 1⟩]
        [⟨15, some 5⟩]).getD 1 nvDefault).totalShares +
        5 / ((calculate_net_value [⟨0, 1⟩, ⟨10, 1/10^11⟩, ⟨20, 1⟩]
        [⟨15, some 5⟩]).getD 1 nvDefault).netValue := by
  refine ⟨?_, ?_, ?_⟩ <;>
    norm_num [calculate_net_value, nvScan, nvLoop, eventsIn, resolveDelta,
      tinyThreshold, ratAbs, nvDefault, List.filter]

/-- C1 (amended): for every bucket whose PREVIOUS bucket's net value
exceeds `1e-10` in magnitude, each share-change numerator of an event
falling in the bucket (timestamp strictly greater than the previous bucket
start and at most the current bucket start) is divided by the previous
bucket's net value, the deltas are summed, and
`total_shares(b) = total_shares(b-1) + Δshares`;
`net_value(b) = total_assets(b) / total_shares(b)`, and `0` when
`|total_shares(b)| ≤ 1e-10`.  (When the previous net value is `≤ 1e-10`
in magnitude the code contributes zero share delta instead — the guard the
original claim omits.) -/
theorem c1_share_resolution_amended (buckets : List NVBucket)
    (events : List NVEvent) (i : ℕ)
    (hlen : i + 1 < (calculate_net_value buckets events).length)
    (hnv : tinyThreshold < ratAbs
      (((calculate_net_value buckets events).getD i nvDefault).netValue)) :
    (((calculate_net_value buckets events).getD (i+1) nvDefault).totalShares =
      ((calculate_net_value buckets events).getD i nvDefault).totalShares +
        ((eventsIn events
            (((calculate_net_value buckets events).getD i nvDefault).timestamp)
            (((calculate_net_value buckets events).getD (i+1) nvDefault).timestamp)).map
          (fun e => match e.shareChange with
            | none => 0
            | some v =>
                v / ((calculate_net_value buckets events).getD i nvDefault).netValue)).sum) ∧
    (tinyThreshold < ratAbs
        (((calculate_net_value buckets events).getD (i+1) nvDefault).totalShares) →
      ((calculate_net_value buckets events).getD (i+1) nvDefault).netValue =
        ((calculate_net_value buckets events).getD (i+1) nvDefault).totalAssets /
          ((calculate_net_value buckets events).getD (i+1) nvDefault).totalShares) ∧
    (¬ tinyThreshold < ratAbs
        (((calculate_net_value buckets events).getD (i+1) nvDefault).totalShares) →
      ((calculate_net_value buckets events).getD (i+1) nvDefault).netValue = 0) := by
  simp only [calculate_net_value] at hlen hnv ⊢
  have hrel := nvScan_getD_succ buckets events i hlen hnv
  obtain ⟨hsh, hnveq⟩ := hrel
  refine ⟨?_, ?_, ?_⟩
  · rw [hsh]
    congr 1
    congr 1
    apply List.map_congr_left
    intro e _
    exact resolveDelta_of_guard _ hnv e
  · intro h
    rw [hnveq, if_pos h]
  · intro h
    rw [hnveq, if_neg h]

/-- Witness for C1: two buckets, one deposit-like event of numerator 10 in
the second bucket, previous net value 1. -/
theorem c1_share_resolution_witness :
    (tinyThreshold < ratAbs
      (((calculate_net_value [⟨0, 100⟩, ⟨10, 110⟩] [⟨7, some 10⟩]).getD 0
        nvDefault).netValue)) ∧
    (((calculate_net_value [⟨0, 100⟩, ⟨10, 110⟩] [⟨7, some 10⟩]).getD 1
        nvDefault).totalShares =
      ((calculate_net_value [⟨0, 100⟩, ⟨10, 110⟩] [⟨7, some 10⟩]).getD 0
          nvDefault).totalShares +
        ((eventsIn [⟨7, some 10⟩]
            (((calculate_net_value [⟨0, 100⟩, ⟨10, 110⟩] [⟨7, some 10⟩]).getD 0
              nvDefault).timestamp)
            (((calculate_net_value [⟨0, 100⟩, ⟨10, 110⟩] [⟨7, some 10⟩]).getD 1
              nvDefault).timestamp)).map
          (fun e => match e.shareChange with
            | none => 0
            | some v =>
                v / ((calculate_net_value [⟨0, 100⟩, ⟨10, 110⟩]
                  [⟨7, some 10⟩]).getD 0 nvDefault).netValue)).sum) :=
  ⟨by norm_num [calculate_net_value, nvScan, nvLoop, eventsIn, resolveDelta,
      tinyThreshold, ratAbs, nvDefault],
   (c1_share_resolution_amended [⟨0, 100⟩, ⟨10, 110⟩] [⟨7, some 10⟩] 0
     (by simp [calculate_net_value, nvScan_length])
     (by norm_num [calculate_net_value, nvScan, nvLoop, eventsIn, resolveDelta,
       tinyThreshold, ratAbs, nvDefault])).1⟩

theorem getD_mem_of_lt {α : Type} (l : List α) (i : ℕ) (d : α)
    (h : i < l.length) : l.getD i d ∈ l := by
  induction l generalizing i with
  | nil => simp at h
  | cons a rest ih =>
      cases i with
      | zero => rw [List.getD_cons_zero]; exact List.mem_cons_self _ _
      | succ j =>
          rw [List.getD_cons_succ]
          rw [List.length_cons, Nat.add_lt_add_iff_right] at h
          exact List.mem_cons_of_mem _ (ih j h)

/-- C2 (counterexample): a full share redemption drives `total_shares` to
exactly 0 while `total_assets` stays at 50; the forced `net_value = 0`
breaks `net_value · total_shares = total_assets` by 50 (far beyond any
floating tolerance), and the following zero-Δshares bucket breaks the
ratio identity (`0/0 = 0` versus `50/50 = 1`). -/
theorem c2_counterexample :
    (1 < ratAbs
      (((calculate_net_value [⟨0, 100⟩, ⟨10, 50⟩, ⟨20, 50⟩]
          [⟨10, some (-100)⟩]).getD 1 nvDefault).netValue *
        ((calculate_net_value [⟨0, 100⟩, ⟨10, 50⟩, ⟨20, 50⟩]
          [⟨10, some (-100)⟩]).getD 1 nvDefault).totalShares -
        ((calculate_net_value [⟨0, 100⟩, ⟨10, 50⟩, ⟨20, 50⟩]
          [⟨10, some (-100)⟩]).getD 1 nvDefault).totalAssets)) ∧
    (((eventsIn [⟨10, some (-100)⟩]
        (((calculate_net_value [⟨0, 100⟩, ⟨10, 50⟩, ⟨20, 50⟩]
          [⟨10, some (-100)⟩]).getD 1 nvDefault).timestamp)
        (((calculate_net_value [⟨0, 100⟩, ⟨10, 50⟩, ⟨20, 50⟩]
          [⟨10, some (-100)⟩]).getD 2 nvDefault).timestamp)).map
      (resolveDelta (((calculate_net_value [⟨0, 100⟩, ⟨10, 50⟩, ⟨20, 50⟩]
          [⟨10, some (-100)⟩]).getD 1 nvDefault).netValue))).sum = 0) ∧
    ((calculate_net_value [⟨0, 100⟩, ⟨10, 50⟩, ⟨20, 50⟩]
          [⟨10, some (-100)⟩]).getD 2 nvDefault).netValue /
        ((calculate_net_value [⟨0, 100⟩, ⟨10, 50⟩, ⟨20, 50⟩]
          [⟨10, some (-100)⟩]).getD 1 nvDefault).netValue ≠
      ((calculate_net_value [⟨0, 100⟩, ⟨10, 50⟩, ⟨20, 50⟩]
          [⟨10, some (-100)⟩]).getD 2 nvDefault).totalAssets /
        ((calculate_net_value [⟨0, 100⟩, ⟨10, 50⟩, ⟨20, 50⟩]
          [⟨10, some (-100)⟩]).getD 1 nvDefault).totalAssets := by
  refine ⟨?_, ?_, ?_⟩ <;>
    norm_num [calculate_net_value, nvScan, nvLoop, eventsIn, resolveDelta,
      tinyThreshold, ratAbs, nvDefault, List.filter]

/-- C2 (amended): `net_value(b) · total_shares(b) = total_assets(b)` holds
exactly for every bucket whose `total_shares` passes the `1e-10` guard
(when the guard fails the code forces `net_value = 0` and the identity can
fail by the full asset value); and the ratio identity
`net_value(b)/net_value(b-1) = total_assets(b)/total_assets(b-1)` holds
for every zero-Δshares bucket whose previous net value exceeds `1e-10` in
magnitude. -/
theorem c2_net_value_identity_amended :
    (∀ (buckets : List NVBucket) (events : List NVEvent) (i : ℕ),
      tinyThreshold < ratAbs
        (((calculate_net_value buckets events).getD i nvDefault).totalShares) →
      ((calculate_net_value buckets events).getD i nvDefault).netValue *
          ((calculate_net_value buckets events).getD i nvDefault).totalShares =
        ((calculate_net_value buckets events).getD i nvDefault).totalAssets) ∧
    (∀ (buckets : List NVBucket) (events : List NVEvent) (i : ℕ),
      i + 1 < (calculate_net_value buckets events).length →
      tinyThreshold < ratAbs
        (((calculate_net_value buckets events).getD i nvDefault).netValue) →
      ((eventsIn events
          (((calculate_net_value buckets events).getD i nvDefault).timestamp)
          (((calculate_net_value buckets events).getD (i+1) nvDefault).timestamp)).map
        (resolveDelta
          (((calculate_net_value buckets events).getD i nvDefault).netValue))).sum = 0 →
      ((calculate_net_value buckets events).getD (i+1) nvDefault).netValue /
          ((calculate_net_value buckets events).getD i nvDefault).netValue =
        ((calculate_net_value buckets events).getD (i+1) nvDefault).totalAssets /
          ((calculate_net_value buckets events).getD i nvDefault).totalAssets) := by
  constructor
  · intro buckets events i hsh
    simp only [calculate_net_value] at hsh ⊢
    by_cases hi : i < (nvScan events buckets).length
    · exact (nvScan_inv buckets events _ (getD_mem_of_lt _ i nvDefault hi)).1 hsh
    · rw [List.getD_eq_default _ _ (not_lt.mp hi)] at hsh
      rw [show nvDefault.totalShares = 0 from rfl, ratAbs_eq_abs, abs_zero] at hsh
      exact absurd hsh (not_lt.mpr (le_of_lt tinyThreshold_pos))
  · intro buckets events i hlen hnv hdelta
    simp only [calculate_net_value] at hlen hnv hdelta ⊢
    obtain ⟨hsh, hnveq⟩ := nvScan_getD_succ buckets events i hlen hnv
    have hi : i < (nvScan events buckets).length := Nat.lt_of_succ_lt hlen
    have hinv := nvScan_inv buckets events _ (getD_mem_of_lt _ i nvDefault hi)
    have hnvne : ((nvScan events buckets).getD i nvDefault).netValue ≠ 0 :=
      ne_zero_of_tiny_lt _ hnv
    obtain ⟨hshguard, hquot⟩ := hinv.2 hnvne
    have hsheq : ((nvScan events buckets).getD (i+1) nvDefault).totalShares =
        ((nvScan events buckets).getD i nvDefault).totalShares := by
      rw [hsh, hdelta, add_zero]
    have hsne : ((nvScan events buckets).getD i nvDefault).totalShares ≠ 0 :=
      ne_zero_of_tiny_lt _ hshguard
    have hane : ((nvScan events buckets).getD i nvDefault).totalAssets ≠ 0 := by
      intro ha
      rw [hquot, ha, zero_div] at hnvne
      exact hnvne rfl
    rw [hnveq, hsheq, if_pos hshguard, hquot]
    exact div_div_div_cancel_right₀ hsne _ _

/-- Witness for C2: two buckets, no events, assets 100 then 110; the ratio
of net values equals the ratio of assets (1.1 = 110/100). -/
theorem c2_net_value_identity_witness :
    (tinyThreshold < ratAbs
      (((calculate_net_value [⟨0, 100⟩, ⟨10, 110⟩]
        ([] : List NVEvent)).getD 0 nvDefault).totalShares)) ∧
    (((calculate_net_value [⟨0, 100⟩, ⟨10, 110⟩]
        ([] : List NVEvent)).getD 0 nvDefault).netValue *
      ((calculate_net_value [⟨0, 100⟩, ⟨10, 110⟩]
        ([] : List NVEvent)).getD 0 nvDefault).totalShares =
      ((calculate_net_value [⟨0, 100⟩, ⟨10, 110⟩]
        ([] : List NVEvent)).getD 0 nvDefault).totalAssets) ∧
    (((calculate_net_value [⟨0, 100⟩, ⟨10, 110⟩]
        ([] : List NVEvent)).getD 1 nvDefault).netValue /
        ((calculate_net_value [⟨0, 100⟩, ⟨10, 110⟩]
          ([] : List NVEvent)).getD 0 nvDefault).netValue =
      ((calculate_net_value [⟨0, 100⟩, ⟨10, 110⟩]
          ([] : List NVEvent)).getD 1 nvDefault).totalAssets /
        ((calculate_net_value [⟨0, 100⟩, ⟨10, 110⟩]
          ([] : List NVEvent)).getD 0 nvDefault).totalAssets) :=
  ⟨by norm_num [calculate_net_value, nvScan, nvLoop, eventsIn, resolveDelta,
      tinyThreshold, ratAbs, nvDefault],
   c2_net_value_identity_amended.1 [⟨0, 100⟩, ⟨10, 110⟩] [] 0
     (by norm_num [calculate_net_value, nvScan, nvLoop, eventsIn, resolveDelta,
       tinyThreshold, ratAbs, nvDefault]),
   c2_net_value_identity_amended.2 [⟨0, 100⟩, ⟨10, 110⟩] [] 0
     (by simp [calculate_net_value, nvScan_length])
     (by norm_num [calculate_net_value, nvScan, nvLoop, eventsIn, resolveDelta,
       tinyThreshold, ratAbs, nvDefault])
     (by simp [eventsIn])⟩

/-- C4 (counterexample): undoing a spot buy of 1 BTC against a position of
`1 + 1e-11` BTC leaves `1e-11`, which the code deletes as a near-zero
entry; the recorded amount is 0, not the claimed
`pos_after − Δposition − Δasset = 1e-11`. -/
theorem c4_counterexample :
    dictGet (undo_spot_event [("BTC", 1 + 1/10^11)] [("BTC", 1)] 0) "BTC" ≠
      dictGet [("BTC", 1 + 1/10^11)] "BTC" - 1 - 0 := by
  norm_num [undo_spot_event, undoSpotStep2, applyChange, dictGet, dictSet,
    dictErase, tinyThreshold, ratAbs]

/-- C4 (amended): per coin, undoing a spot event subtracts the coin's
recorded change — rounding any result below `1e-10` in magnitude to zero
(entry removed) — and subtracts the asset change from USDC only, and only
when the asset change itself exceeds `1e-10` in magnitude (again with
near-zero rounding); undoing a perp event subtracts the amount for side
`'B'`, adds it for side `'A'` (with the same rounding), leaves coins with
an invalid side unchanged, and leaves every coin not referenced by the
event unchanged. -/
theorem c4_undo_pointwise_amended (pos : SpotPos) (ch : List (String × ℚ))
    (ac : ℚ) (current : List PerpEntry) (chp : List (String × PerpChange))
    (c : String) (hch : (ch.map Prod.fst).Nodup)
    (hchp : (chp.map Prod.fst).Nodup) :
    (dictGet (undo_spot_event pos ch ac) c =
      (if c = "USDC" ∧ tinyThreshold < ratAbs ac then
        roundTiny ((match chLookup ch "USDC" with
          | some δ => roundTiny (dictGet pos "USDC" - δ)
          | none => dictGet pos "USDC") - ac)
      else
        match chLookup ch c with
        | some δ => roundTiny (dictGet pos c - δ)
        | none => dictGet pos c)) ∧
    (perpGet (undo_perp_event current chp) c =
      if chp.isEmpty then perpGet current c
      else match chLookupP chp c with
        | some info =>
            if info.side = "B" then roundTiny (perpGet current c - info.amount)
            else if info.side = "A" then
              roundTiny (perpGet current c + info.amount)
            else perpGet current c
        | none => perpGet current c) :=
  ⟨undo_spot_get pos ch ac c hch, undo_perp_get current chp c hchp⟩

/-- Witness for C4: a concrete spot undo (BTC referenced, USDC fee above
the guard) and perp undo (buy of 2 ETH inverted to a subtraction). -/
theorem c4_undo_pointwise_witness :
    ((([("BTC", (1:ℚ))]).map Prod.fst).Nodup) ∧
    ((([("ETH", (⟨2, 100, "Open Long", "B"⟩ : PerpChange))]).map Prod.fst).Nodup) ∧
    (dictGet (undo_spot_event [("BTC", 11), ("USDC", 1000)] [("BTC", 1)] 5) "BTC" =
      (if ("BTC" : String) = "USDC" ∧ tinyThreshold < ratAbs 5 then
        roundTiny ((match chLookup [("BTC", (1:ℚ))] "USDC" with
          | some δ => roundTiny (dictGet [("BTC", 11), ("USDC", 1000)] "USDC" - δ)
          | none => dictGet [("BTC", 11), ("USDC", 1000)] "USDC") - 5)
      else
        match chLookup [("BTC", (1:ℚ))] "BTC" with
        | some δ => roundTiny (dictGet [("BTC", 11), ("USDC", 1000)] "BTC" - δ)
        | none => dictGet [("BTC", 11), ("USDC", 1000)] "BTC")) ∧
    (perpGet (undo_perp_event [⟨"ETH", 5, "long"⟩]
        [("ETH", ⟨2, 100, "Open Long", "B"⟩)]) "ETH" =
      if ([("ETH", (⟨2, 100, "Open Long", "B"⟩ : PerpChange))]).isEmpty then
        perpGet [⟨"ETH", 5, "long"⟩] "ETH"
      else match chLookupP [("ETH", ⟨2, 100, "Open Long", "B"⟩)] "ETH" with
        | some info =>
            if info.side = "B" then
              roundTiny (perpGet [⟨"ETH", 5, "long"⟩] "ETH" - info.amount)
            else if info.side = "A" then
              roundTiny (perpGet [⟨"ETH", 5, "long"⟩] "ETH" + info.amount)
            else perpGet [⟨"ETH", 5, "long"⟩] "ETH"
        | none => perpGet [⟨"ETH", 5, "long"⟩] "ETH") :=
  ⟨by decide, by decide,
   (c4_undo_pointwise_amended [("BTC", 11), ("USDC", 1000)] [("BTC", 1)] 5
     [⟨"ETH", 5, "long"⟩] [("ETH", ⟨2, 100, "Open Long", "B"⟩)] "BTC"
     (by decide) (by decide)).1,
   (c4_undo_pointwise_amended [("BTC", 11), ("USDC", 1000)] [("BTC", 1)] 5
     [⟨"ETH", 5, "long"⟩] [("ETH", ⟨2, 100, "Open Long", "B"⟩)] "ETH"
     (by decide) (by decide)).2⟩

theorem chLookup_mem_keys (ch : List (String × ℚ)) (c : String) (δ : ℚ)
    (h : chLookup ch c = some δ) : c ∈ ch.map Prod.fst := by
  induction ch with
  | nil => cases h
  | cons p rest ih =>
      obtain ⟨k, v⟩ := p
      rw [chLookup] at h
      by_cases hkc : k = c
      · subst hkc
        exact List.mem_map.mpr ⟨(k, v), List.mem_cons_self _ _, rfl⟩
      · rw [if_neg hkc] at h
        exact List.mem_cons_of_mem _ (ih h)

theorem chLookupP_mem_keys (ch : List (String × PerpChange)) (c : String)
    (info : PerpChange) (h : chLookupP ch c = some info) :
    c ∈ ch.map Prod.fst :=
  List.mem_map.mpr ⟨(c, info), chLookupP_mem ch c info h, rfl⟩

/-- Undo exactly recovers the pre-event spot position, provided no touched
amount falls in the `(0, 1e-10)` dead zone. -/
theorem undo_apply_spot_id (pos : SpotPos) (ch : List (String × ℚ)) (ac : ℚ)
    (hch : (ch.map Prod.fst).Nodup)
    (hac : ac = 0 ∨ tinyThreshold < ratAbs ac)
    (hstable : ∀ c ∈ ch.map Prod.fst, roundTiny (dictGet pos c) = dictGet pos c)
    (husdc : roundTiny (dictGet pos "USDC") = dictGet pos "USDC")
    (husdc2 : roundTiny (dictGet pos "USDC" + ac) = dictGet pos "USDC" + ac) :
    ∀ c, dictGet (undo_spot_event (apply_spot_event pos ch ac) ch ac) c =
      dictGet pos c := by
  intro c
  rw [undo_spot_get _ _ _ _ hch]
  by_cases hcu : c = "USDC"
  · subst hcu
    by_cases hacg : tinyThreshold < ratAbs ac
    · rw [if_pos (And.intro rfl hacg)]
      cases hLU : chLookup ch "USDC" with
      | some δ =>
          dsimp only
          rw [apply_spot_get pos ch ac "USDC" hch, hLU]
          dsimp only
          rw [if_pos rfl,
            show dictGet pos "USDC" + δ + ac - δ = dictGet pos "USDC" + ac by
              ring,
            husdc2, add_sub_cancel_right, husdc]
      | none =>
          dsimp only
          rw [apply_spot_get pos ch ac "USDC" hch, hLU]
          dsimp only
          rw [if_pos rfl, add_zero, add_sub_cancel_right, husdc]
    · rw [if_neg (fun hand => hacg hand.2)]
      have hac0 : ac = 0 := by
        rcases hac with h | h
        · exact h
        · exact absurd h hacg
      subst hac0
      cases hLU : chLookup ch "USDC" with
      | some δ =>
          dsimp only
          rw [apply_spot_get pos ch 0 "USDC" hch, hLU]
          dsimp only
          rw [if_pos rfl,
            show dictGet pos "USDC" + δ + 0 - δ = dictGet pos "USDC" by ring,
            husdc]
      | none =>
          dsimp only
          rw [apply_spot_get pos ch 0 "USDC" hch, hLU]
          dsimp only
          rw [if_pos rfl, add_zero, add_zero]
  · rw [if_neg (fun hand => hcu hand.1)]
    cases hL : chLookup ch c with
    | some δ =>
        dsimp only
        rw [apply_spot_get pos ch ac c hch, hL]
        dsimp only
        rw [if_neg hcu, add_zero,
          show dictGet pos c + δ - δ = dictGet pos c by ring]
        exact hstable c (chLookup_mem_keys ch c δ hL)
    | none =>
        dsimp only
        rw [apply_spot_get pos ch ac c hch, hL]
        dsimp only
        rw [if_neg hcu, add_zero, add_zero]

/-- Undo exactly recovers the pre-event perp position, provided all sides
are valid and no touched amount falls in the `(0, 1e-10)` dead zone. -/
theorem undo_apply_perp_id (perp : List PerpEntry)
    (chp : List (String × PerpChange))
    (hchp : (chp.map Prod.fst).Nodup)
    (hsides : ∀ p ∈ chp, p.2.side = "B" ∨ p.2.side = "A")
    (hstable : ∀ c ∈ chp.map Prod.fst,
      roundTiny (perpGet perp c) = perpGet perp c) :
    ∀ c, perpGet (undo_perp_event (apply_perp_event perp chp) chp) c =
      perpGet perp c := by
  intro c
  rw [undo_perp_get _ _ _ hchp]
  by_cases he : chp.isEmpty
  · rw [if_pos he]
    have : chp = [] := by
      cases chp with
      | nil => rfl
      | cons a l => cases he
    subst this
    rw [apply_perp_event, if_pos he]
  · rw [if_neg he]
    cases hL : chLookupP chp c with
    | some info =>
        have hmem := chLookupP_mem chp c info hL
        have hst := hstable c (chLookupP_mem_keys chp c info hL)
        dsimp only
        rcases hsides (c, info) hmem with hb | ha
        · rw [hb]
          rw [if_pos rfl, apply_perp_get perp chp c hchp, hL]
          dsimp only
          rw [hb, if_pos rfl, add_sub_cancel_right]
          exact hst
        · have hbne : info.side ≠ "B" := by
            rw [ha]
            decide
          rw [if_neg hbne, ha]
          rw [if_pos rfl, apply_perp_get perp chp c hchp, hL]
          dsimp only
          rw [if_neg hbne, ha, if_pos rfl,
            show perpGet perp c + -info.amount + info.amount = perpGet perp c by
              ring]
          exact hst
    | none =>
        dsimp only
        rw [apply_perp_get perp chp c hchp, hL]
        dsimp only
        rw [add_zero]

/-- C9 (counterexample): starting from `1e-11` BTC, applying a buy of 1
BTC, inverting it (the undo deletes the recovered `1e-11` as near-zero),
and applying it again yields 1 BTC instead of the original
`1 + 1e-11` BTC — the round trip is not exact. -/
theorem c9_counterexample :
    dictGet (apply_spot_event
      (undo_spot_event (apply_spot_event [("BTC", 1/10^11)] [("BTC", 1)] 0)
        [("BTC", 1)] 0)
      [("BTC", 1)] 0) "BTC" ≠
    dictGet (apply_spot_event [("BTC", 1/10^11)] [("BTC", 1)] 0) "BTC" := by
  have h1 : (("USDC" : String) = "BTC") = False := by decide
  have h2 : (("BTC" : String) = "USDC") = False := by decide
  norm_num [apply_spot_event, undo_spot_event, undoSpotStep2, applyChange,
    dictGet, dictSet, dictErase, tinyThreshold, ratAbs, h1, h2]

/-- C9 (amended): `apply(invert(apply(position, event)), event)` equals
`apply(position, event)` coin-by-coin, for both spot and perp states,
provided the event's per-coin keys are distinct, every referenced prior
amount (and the settlement-currency amount, and its sum with the asset
change) is either exactly zero or at least `1e-10` in magnitude, the asset
change is zero or above `1e-10` in magnitude, and all perp sides are valid
— precisely the conditions under which the undo's near-zero deletion and
asset-change guard cannot round anything away. -/
theorem c9_undo_redo_amended (pos : SpotPos) (ch : List (String × ℚ))
    (ac : ℚ) (perp : List PerpEntry) (chp : List (String × PerpChange))
    (hch : (ch.map Prod.fst).Nodup) (hchp : (chp.map Prod.fst).Nodup)
    (hac : ac = 0 ∨ tinyThreshold < ratAbs ac)
    (hstable : ∀ c ∈ ch.map Prod.fst, roundTiny (dictGet pos c) = dictGet pos c)
    (husdc : roundTiny (dictGet pos "USDC") = dictGet pos "USDC")
    (husdc2 : roundTiny (dictGet pos "USDC" + ac) = dictGet pos "USDC" + ac)
    (hsides : ∀ p ∈ chp, p.2.side = "B" ∨ p.2.side = "A")
    (hstableP : ∀ c ∈ chp.map Prod.fst,
      roundTiny (perpGet perp c) = perpGet perp c) :
    (∀ c, dictGet (apply_spot_event
        (undo_spot_event (apply_spot_event pos ch ac) ch ac) ch ac) c =
      dictGet (apply_spot_event pos ch ac) c) ∧
    (∀ c, perpGet (apply_perp_event
        (undo_perp_event (apply_perp_event perp chp) chp) chp) c =
      perpGet (apply_perp_event perp chp) c) := by
  constructor
  · intro c
    rw [apply_spot_get _ ch ac c hch, apply_spot_get pos ch ac c hch,
      undo_apply_spot_id pos ch ac hch hac hstable husdc husdc2 c]
  · intro c
    rw [apply_perp_get _ chp c hchp, apply_perp_get perp chp c hchp,
      undo_apply_perp_id perp chp hchp hsides hstableP c]

/-- Witness for C9: a buy of 2 BTC with a 3-USDC asset change over the
position `{BTC: 5, USDC: 40}`, and a perp buy of 1 ETH over 4 ETH long. -/
theorem c9_undo_redo_witness :
    ((3 : ℚ) = 0 ∨ tinyThreshold < ratAbs 3) ∧
    (dictGet (apply_spot_event
        (undo_spot_event
          (apply_spot_event [("BTC", 5), ("USDC", 40)] [("BTC", 2)] 3)
          [("BTC", 2)] 3)
        [("BTC", 2)] 3) "BTC" =
      dictGet (apply_spot_event [("BTC", 5), ("USDC", 40)] [("BTC", 2)] 3)
        "BTC") ∧
    (perpGet (apply_perp_event
        (undo_perp_event
          (apply_perp_event [⟨"ETH", 4, "long"⟩]
            [("ETH", ⟨1, 10, "Open Long", "B"⟩)])
          [("ETH", ⟨1, 10, "Open Long", "B"⟩)])
        [("ETH", ⟨1, 10, "Open Long", "B"⟩)]) "ETH" =
      perpGet (apply_perp_event [⟨"ETH", 4, "long"⟩]
        [("ETH", ⟨1, 10, "Open Long", "B"⟩)]) "ETH") :=
  ⟨Or.inr (by norm_num [tinyThreshold, ratAbs]),
   (c9_undo_redo_amended [("BTC", 5), ("USDC", 40)] [("BTC", 2)] 3
     [⟨"ETH", 4, "long"⟩] [("ETH", ⟨1, 10, "Open Long", "B"⟩)]
     (by decide) (by decide)
     (Or.inr (by norm_num [tinyThreshold, ratAbs]))
     (by
       intro c hc
       simp only [List.map_cons, List.map_nil, List.mem_singleton] at hc
       subst hc
       norm_num [roundTiny, ratAbs, tinyThreshold, dictGet])
     (by
       have hbu : (("BTC" : String) = "USDC") = False := by decide
       norm_num [roundTiny, ratAbs, tinyThreshold, dictGet, hbu])
     (by
       have hbu : (("BTC" : String) = "USDC") = False := by decide
       norm_num [roundTiny, ratAbs, tinyThreshold, dictGet, hbu])
     (by
       intro p hp
       simp only [List.mem_singleton] at hp
       subst hp
       exact Or.inl rfl)
     (by
       intro c hc
       simp only [List.map_cons, List.map_nil, List.mem_singleton] at hc
       subst hc
       norm_num [roundTiny, ratAbs, tinyThreshold, perpGet, perpToDict,
         dictGet, dictSet, dictErase])).1 "BTC",
   (c9_undo_redo_amended [("BTC", 5), ("USDC", 40)] [("BTC", 2)] 3
     [⟨"ETH", 4, "long"⟩] [("ETH", ⟨1, 10, "Open Long", "B"⟩)]
     (by decide) (by decide)
     (Or.inr (by norm_num [tinyThreshold, ratAbs]))
     (by
       intro c hc
       simp only [List.map_cons, List.map_nil, List.mem_singleton] at hc
       subst hc
       norm_num [roundTiny, ratAbs, tinyThreshold, dictGet])
     (by
       have hbu : (("BTC" : String) = "USDC") = False := by decide
       norm_num [roundTiny, ratAbs, tinyThreshold, dictGet, hbu])
     (by
       have hbu : (("BTC" : String) = "USDC") = False := by decide
       norm_num [roundTiny, ratAbs, tinyThreshold, dictGet, hbu])
     (by
       intro p hp
       simp only [List.mem_singleton] at hp
       subst hp
       exact Or.inl rfl)
     (by
       intro c hc
       simp only [List.map_cons, List.map_nil, List.mem_singleton] at hc
       subst hc
       norm_num [roundTiny, ratAbs, tinyThreshold, perpGet, perpToDict,
         dictGet, dictSet, dictErase])).2 "ETH"⟩

/-- C10 (counterexample): undo does not purge near-zero entries for coins
the event never touches — a stale `1e-11` ETH survives an undo that only
touches BTC — and the empty-changes early return keeps a perp entry whose
direction tag contradicts the sign of its amount. -/
theorem c10_counterexample :
    (("ETH", 1/10^11) ∈ undo_spot_event [("ETH", 1/10^11)] [("BTC", 1)] 0 ∧
      ratAbs (1/10^11) < tinyThreshold) ∧
    ((⟨"BTC", 5, "short"⟩ : PerpEntry) ∈
        undo_perp_event [⟨"BTC", 5, "short"⟩] [] ∧
      0 < (5 : ℚ) ∧ ("short" : String) ≠ "long") := by
  have hbe : (("BTC" : String) = "ETH") = False := by decide
  have heb : (("ETH" : String) = "BTC") = False := by decide
  have hspot : undo_spot_event [("ETH", 1/10^11)] [("BTC", 1)] 0 =
      [("BTC", -1), ("ETH", 1/10^11)] := by
    norm_num [undo_spot_event, undoSpotStep2, applyChange, List.foldl,
      dictGet, dictSet, dictErase, tinyThreshold, ratAbs, hbe, heb]
  have hperp : undo_perp_event [(⟨"BTC", 5, "short"⟩ : PerpEntry)] [] =
      [⟨"BTC", 5, "short"⟩] := rfl
  refine ⟨⟨?_, by norm_num [ratAbs, tinyThreshold]⟩,
    ⟨?_, by norm_num, by decide⟩⟩
  · rw [hspot]
    exact List.mem_cons_of_mem _ (List.mem_singleton.mpr rfl)
  · rw [hperp]
    exact List.mem_singleton.mpr rfl

/-- C10 (amended): the near-zero purge and the direction-follows-sign
invariant hold only for coins the event actually references (with valid
sides) and only when the perp change list is non-empty: for such coins any
surviving spot entry is at least `1e-10` in magnitude, every entry of a
non-empty-change perp undo has `dir` matching the sign of its amount, and
any surviving perp entry for a referenced coin is at least `1e-10` in
magnitude. -/
theorem c10_near_zero_amended (pos : SpotPos) (ch : List (String × ℚ))
    (ac : ℚ) (current : List PerpEntry) (chp : List (String × PerpChange))
    (c cp : String) (hc : c ∈ ch.map Prod.fst) (hcp : cp ∈ chp.map Prod.fst)
    (hsides : ∀ p ∈ chp, p.2.side = "B" ∨ p.2.side = "A") :
    (∀ v, (c, v) ∈ undo_spot_event pos ch ac → tinyThreshold ≤ ratAbs v) ∧
    (∀ e ∈ undo_perp_event current chp,
      (0 < e.amount ∧ e.dir = "long") ∨ (e.amount < 0 ∧ e.dir = "short")) ∧
    (∀ e ∈ undo_perp_event current chp, e.coin = cp →
      tinyThreshold ≤ ratAbs e.amount) := by
  have hne : chp.isEmpty = false := by
    cases chp with
    | nil => simp at hcp
    | cons a l => rfl
  exact ⟨fun v hv => undo_spot_no_tiny pos ch ac c hc v hv,
    fun e he => undo_perp_dir current chp hne e he,
    fun e he hec => undo_perp_no_tiny current chp cp hcp hsides e he hec⟩

/-- Witness for C10: undoing a 1-BTC buy over 2 BTC leaves 1 BTC (not
tiny), and undoing a 1-ETH buy over 4 ETH long leaves `⟨ETH, 3, long⟩`
with direction matching its positive, non-tiny amount. -/
theorem c10_near_zero_witness :
    (tinyThreshold ≤ ratAbs (1 : ℚ)) ∧
    ((0 < ((⟨"ETH", 3, "long"⟩ : PerpEntry)).amount ∧
        ((⟨"ETH", 3, "long"⟩ : PerpEntry)).dir = "long") ∨
      (((⟨"ETH", 3, "long"⟩ : PerpEntry)).amount < 0 ∧
        ((⟨"ETH", 3, "long"⟩ : PerpEntry)).dir = "short")) ∧
    (tinyThreshold ≤ ratAbs ((⟨"ETH", 3, "long"⟩ : PerpEntry)).amount) := by
  have hspot : undo_spot_event [("BTC", 2)] [("BTC", 1)] 0 = [("BTC", 1)] := by
    norm_num [undo_spot_event, undoSpotStep2, applyChange, List.foldl,
      dictGet, dictSet, dictErase, tinyThreshold, ratAbs]
  have hperp : undo_perp_event [⟨"ETH", 4, "long"⟩]
      [("ETH", ⟨1, 10, "Open Long", "B"⟩)] = [⟨"ETH", 3, "long"⟩] := by
    norm_num [undo_perp_event, perpApplyChange, perpToDict, perpRebuild,
      List.foldl, List.filterMap, List.isEmpty, dictGet, dictSet, dictErase,
      tinyThreshold, ratAbs]
  have h := c10_near_zero_amended [("BTC", 2)] [("BTC", 1)] 0
    [⟨"ETH", 4, "long"⟩] [("ETH", ⟨1, 10, "Open Long", "B"⟩)] "BTC" "ETH"
    (by decide) (by decide)
    (by
      intro p hp
      simp only [List.mem_singleton] at hp
      subst hp
      exact Or.inl rfl)
  exact ⟨h.1 1 (by rw [hspot]; exact List.mem_singleton.mpr rfl),
    h.2.1 _ (by rw [hperp]; exact List.mem_singleton.mpr rfl),
    h.2.2 _ (by rw [hperp]; exact List.mem_singleton.mpr rfl) rfl⟩

/-- C7 (counterexample): a send of a non-USDC token from the account to an
external address matches direction case 3, so it is not an unmatched
direction combination — yet the code raises on it, because cases 3 and 5
additionally require the sent token to be USDC.  The claim's list of fatal
cases therefore misses these raises. -/
theorem c7_counterexample :
    isError (record_event_impact "acc"
      (.ledger "send"
        ⟨0, 0, "", "HYPE", 1, 1, "acc", "ext", "", "", false, 0, none⟩)) = true ∧
    c7ClaimedFatal "acc"
      (.ledger "send"
        ⟨0, 0, "", "HYPE", 1, 1, "acc", "ext", "", "", false, 0, none⟩) = false :=
  ⟨rfl, rfl⟩

/-- C7 (amended): for a non-empty account address, event normalization
raises exactly on: an unrecognized ledger subtype; a send matching none of
the six direction cases, or reaching direction case 3 or 5 with a
non-USDC token; and a perp/perps/spot trade whose side is neither `'B'`
nor `'A'`. -/
theorem c7_error_cases_amended (addr : String) (e : Event) (h : addr ≠ "") :
    isError (record_event_impact addr e) = c7AmendedFatal addr e :=
  record_event_impact_error addr e h

/-- Witness for C7: a perp trade with side `'X'` under account `"acc"`. -/
theorem c7_error_cases_witness :
    ("acc" : String) ≠ "" ∧
    isError (record_event_impact "acc"
        (.trade "perp" ⟨"ETH", "X", 1, 10, 0, 0, 0, "USDC", "", "perp"⟩)) =
      c7AmendedFatal "acc"
        (.trade "perp" ⟨"ETH", "X", 1, 10, 0, 0, 0, "USDC", "", "perp"⟩) :=
  ⟨by decide, c7_error_cases_amended "acc"
    (.trade "perp" ⟨"ETH", "X", 1, 10, 0, 0, 0, "USDC", "", "perp"⟩)
    (by decide)⟩
